import Mathlib

/-!
# Vaani frontend: the authenticated API client (src/api/axios.js)

A shallow embedding of the token-refresh coordinator of `src/src/api/axios.js`:
the session terminator `redirectToLogin`, the request interceptor, the module
variables `isRefreshing` and `failedQueue`, `processQueue`, and the rejection
handler of the response interceptor.

The handler is an `async` function.  It is embedded as explicit state passing,
cut at its suspension points: `onRejected` is the synchronous section that runs
when a failed response reaches the interceptor, `afterRefresh` is the section
that runs when the awaited refresh exchange settles, and the reactions of the
queued promises are microtasks run by `drainMicrotasks`.  Everything the code
does to the outside world (events, navigation, network calls, promises settled
for callers) is appended to the field `log` of the state.

Further down come `isAuthenticated` of `src/src/context/AuthContext.jsx`,
`safeStr` of `src/src/utils/safeDisplay.js`, and `cleanTextForSpeech` and
`detectLanguage` of `src/src/utils/speech.js`, and `getSavedIds` and
`toggleSaved` of `src/src/pages/Schemes.jsx`.  A JavaScript string is embedded
as the list of its characters; the regular expressions of speech.js are
embedded as scans over that list, one function per `replace` call.
-/

namespace Vaani

/-! ## Values -/

/-- The JavaScript values a credential variable can hold: `undefined`, `null` or a string. -/
inductive JsValue where
  | undefined
  | null
  | str (s : String)
  deriving DecidableEq, Repr

/-- String conversion of a value, as performed by a template literal and by
`localStorage.setItem`. -/
def JsValue.toStr : JsValue → String
  | .undefined => "undefined"
  | .null => "null"
  | .str s => s

/-- Truthiness of the result of `localStorage.getItem`: a stored, non-empty string. -/
def truthy : Option String → Bool
  | none => false
  | some v => v != ""

/-! ## localStorage -/

/-- The browser key-value store `localStorage`, as an association list. -/
abbrev Storage := List (String × String)

/-- Model of `localStorage.getItem(key)`; `none` is `null`. -/
def getItem (ls : Storage) (key : String) : Option String :=
  ls.lookup key

/-- Model of `localStorage.removeItem(key)`. -/
def removeItem (ls : Storage) (key : String) : Storage :=
  ls.filter (fun kv => kv.1 != key)

/-- Model of `localStorage.setItem(key, value)`. -/
def setItem (ls : Storage) (key value : String) : Storage :=
  (key, value) :: removeItem ls key

/-! ## Requests and errors -/

/-- An axios request config.  `url` stands for everything that identifies the
call (method, url, body); `Authorization` is `config.headers.Authorization`;
`_retry` is the marker set by the response interceptor (absent reads as false). -/
structure RequestConfig where
  url : String
  Authorization : Option String
  _retry : Bool
  deriving DecidableEq, Repr

/-- The error object a failed call rejects with: `error.config` (may be absent)
and `error.response?.status` (absent when there is no response). -/
structure AxiosError where
  message : String
  config : Option RequestConfig
  status : Option Nat
  deriving DecidableEq, Repr

/-- A thrown or rejected value: an axios error, or the `TypeError` raised by a
property read on `undefined` or `null`. -/
inductive JsError where
  | axiosError (e : AxiosError)
  | typeError
  deriving DecidableEq, Repr

/-- The `data` of the refresh response: `undefined`/`null`, or a body whose
`access` and `refresh` properties are read as values (absent is `undefined`). -/
inductive RefreshData where
  | nullish
  | body (access : JsValue) (refresh : JsValue)
  deriving DecidableEq, Repr

/-! ## Observable effects and the state -/

/-- What the code does to the outside world, in the order it happens. -/
inductive Effect where
  /-- Records `window.dispatchEvent(new Event(type))`. -/
  | dispatchEvent (type : String)
  /-- Records `window.location.href = href`. -/
  | setHref (href : String)
  /-- Records `axios.post(BASE_URL + "/api/token/refresh/", refresh)`. -/
  | refreshPost (refresh : String)
  /-- Records a call `api(config)`, with the config as it leaves the request interceptor. -/
  | request (config : RequestConfig)
  /-- Records that the promise of a queued request is rejected to its caller. -/
  | rejected (originalRequest : RequestConfig) (e : JsError)
  deriving DecidableEq, Repr

/-- An entry of `failedQueue`: the pair of settle functions of a pending
promise, whose reactions close over `originalRequest`. -/
structure Waiter where
  originalRequest : RequestConfig
  deriving DecidableEq, Repr

/-- A scheduled promise reaction of a settled waiter. -/
inductive Microtask where
  /-- The `.then((token) => ...)` reaction of the waiter. -/
  | onFulfilled (originalRequest : RequestConfig) (token : JsValue)
  /-- The `.catch((err) => Promise.reject(err))` reaction of the waiter. -/
  | onRejected (originalRequest : RequestConfig) (err : JsError)
  deriving DecidableEq, Repr

/-- The module variables of axios.js together with the browser state it touches. -/
structure State where
  isRefreshing : Bool
  failedQueue : List Waiter
  localStorage : Storage
  /-- Holds `api.defaults.headers.common["Authorization"]`. -/
  defaultsAuthorization : Option String
  /-- Holds `window.location.pathname`. -/
  pathname : String
  microtasks : List Microtask
  log : List Effect
  deriving DecidableEq, Repr

/-- The state when the module has just been loaded: `isRefreshing = false`, `failedQueue = []`. -/
def State.init (ls : Storage) (pathname : String) : State :=
  { isRefreshing := false, failedQueue := [], localStorage := ls,
    defaultsAuthorization := none, pathname := pathname, microtasks := [], log := [] }

/-! ## The session terminator -/

/-- Embeds `redirectToLogin` (axios.js lines 12-20). -/
def redirectToLogin (s : State) : State :=
  let s := { s with localStorage := removeItem s.localStorage "access_token" }
  let s := { s with localStorage := removeItem s.localStorage "refresh_token" }
  let s := { s with log := s.log ++ [Effect.dispatchEvent "auth-logout"] }
  let path := s.pathname
  if path != "/login" && path != "/register" then
    { s with log := s.log ++ [Effect.setHref "/login"] }
  else
    s

/-! ## The request dispatcher -/

/-- Embeds the request interceptor (axios.js lines 22-31): the fulfilled handler
of `api.interceptors.request.use`. -/
def requestInterceptor (ls : Storage) (config : RequestConfig) : RequestConfig :=
  let token := getItem ls "access_token"
  if truthy token then
    { config with Authorization := some ("Bearer " ++ (token.getD "")) }
  else
    config

/-- The header merge axios performs before the interceptors run: a header of
the config wins over `api.defaults.headers.common`. -/
def mergeDefaults (defaultsAuthorization : Option String) (config : RequestConfig) :
    RequestConfig :=
  { config with Authorization := config.Authorization.orElse (fun _ => defaultsAuthorization) }

/-- A call `api(config)`: the defaults are merged in, the request interceptor
runs, and the request is put on the wire (recorded in the log).  The
interceptor runs in the same microtask checkpoint as the call, so it reads the
store as it is at the call. -/
def api (s : State) (config : RequestConfig) : State :=
  { s with log := s.log ++
      [Effect.request (requestInterceptor s.localStorage (mergeDefaults s.defaultsAuthorization config))] }

/-! ## The waiter queue -/

/-- The reaction that settling one queued promise schedules: `prom.reject(error)`
when `error` is given, `prom.resolve(token)` otherwise. -/
def settle (error : Option JsError) (token : JsValue) (prom : Waiter) : Microtask :=
  match error with
  | some e => Microtask.onRejected prom.originalRequest e
  | none => Microtask.onFulfilled prom.originalRequest token

/-- Embeds `processQueue` (axios.js lines 36-45).  The parameter default
`token = null` replaces an `undefined` argument by `null`. -/
def processQueue (error : Option JsError) (token : JsValue) (s : State) : State :=
  let token := if token = JsValue.undefined then JsValue.null else token
  { s with
    microtasks := s.microtasks ++ s.failedQueue.map (settle error token)
    failedQueue := [] }

/-- Runs one promise reaction of a waiter (axios.js lines 57-61). -/
def runMicrotask (s : State) : Microtask → State
  | .onFulfilled originalRequest token =>
      let originalRequest :=
        { originalRequest with Authorization := some ("Bearer " ++ token.toStr) }
      api s originalRequest
  | .onRejected originalRequest err =>
      { s with log := s.log ++ [Effect.rejected originalRequest err] }

/-- Runs the scheduled reactions in the order they were scheduled, until none is left. -/
def drainMicrotasks (s : State) : State :=
  s.microtasks.foldl runMicrotask { s with microtasks := [] }

/-! ## The response interceptor -/

/-- How the promise returned by the handler stands when a synchronous section ends. -/
inductive Outcome where
  /-- The handler returned `Promise.reject(e)`, or threw `e`. -/
  | rejected (e : JsError)
  /-- The handler returned the promise pushed on `failedQueue`, still pending. -/
  | queued
  /-- The handler is suspended at `await axios.post(...)`. -/
  | awaitingRefresh (originalRequest : RequestConfig)
  /-- The handler returned `api(config)`: the caller gets the outcome of the reissued call. -/
  | reissued (config : RequestConfig)
  deriving DecidableEq, Repr

/-- The `catch (refreshError)` block (axios.js lines 85-89). -/
def catchBlock (s : State) (refreshError : JsError) : State × Outcome :=
  let s := processQueue (some refreshError) JsValue.null s
  let s := { s with isRefreshing := false }
  let s := redirectToLogin s
  (s, Outcome.rejected refreshError)

/-- The `try` block after the awaited exchange (axios.js lines 76-84); an
`Except.error` is a value thrown inside the block. -/
def tryBlock (s : State) (originalRequest : RequestConfig)
    (result : Except JsError RefreshData) : Except JsError (State × Outcome) :=
  match result with
  | .error refreshError => .error refreshError
  | .ok RefreshData.nullish => .error JsError.typeError
  | .ok (RefreshData.body access _) =>
      let s := { s with localStorage := setItem s.localStorage "access_token" access.toStr }
      let s := { s with defaultsAuthorization := some ("Bearer " ++ access.toStr) }
      let originalRequest :=
        { originalRequest with Authorization := some ("Bearer " ++ access.toStr) }
      let s := processQueue none access s
      .ok (api s originalRequest, Outcome.reissued originalRequest)

/-- The section of the handler that runs when the refresh exchange settles
(axios.js lines 75-92): `try`, `catch`, then `finally`. -/
def afterRefresh (s : State) (originalRequest : RequestConfig)
    (result : Except JsError RefreshData) : State × Outcome :=
  let r := match tryBlock s originalRequest result with
    | .ok r => r
    | .error refreshError => catchBlock s refreshError
  ({ r.1 with isRefreshing := false }, r.2)

/-- The synchronous section of the rejection handler of
`api.interceptors.response.use` (axios.js lines 49-96), up to its first
suspension point. -/
def onRejected (s : State) (error : AxiosError) : State × Outcome :=
  match error.config with
  | none =>
      if error.status = some 401 then (s, Outcome.rejected JsError.typeError)
      else (s, Outcome.rejected (JsError.axiosError error))
  | some originalRequest =>
      if error.status = some 401 ∧ originalRequest._retry = false then
        if s.isRefreshing then
          ({ s with failedQueue := s.failedQueue ++ [{ originalRequest := originalRequest }] },
            Outcome.queued)
        else
          let originalRequest := { originalRequest with _retry := true }
          let error := { error with config := some originalRequest }
          let s := { s with isRefreshing := true }
          let refreshToken := getItem s.localStorage "refresh_token"
          if !truthy refreshToken then
            let s := processQueue (some (JsError.axiosError error)) JsValue.null s
            let s := { s with isRefreshing := false }
            let s := redirectToLogin s
            (s, Outcome.rejected (JsError.axiosError error))
          else
            ({ s with log := s.log ++ [Effect.refreshPost (refreshToken.getD "")] },
              Outcome.awaitingRefresh originalRequest)
      else
        (s, Outcome.rejected (JsError.axiosError error))

/-- One failed response reaching the interceptor: the handler runs its
synchronous section, then the microtasks it scheduled run. -/
def handle (s : State) (error : AxiosError) : State × Outcome :=
  let r := onRejected s error
  (drainMicrotasks r.1, r.2)

/-- Failed responses reaching the interceptor one after the other, with no
refresh exchange settling in between; returns the final state and the outcome
of each handler, in arrival order. -/
def handleAll (s : State) : List AxiosError → State × List Outcome
  | [] => (s, [])
  | error :: rest =>
      let r := handle s error
      let rs := handleAll r.1 rest
      (rs.1, r.2 :: rs.2)

/-- The refresh exchange settling: the suspended handler resumes, then the
microtasks it scheduled run. -/
def settleRefresh (s : State) (originalRequest : RequestConfig)
    (result : Except JsError RefreshData) : State × Outcome :=
  let r := afterRefresh s originalRequest result
  (drainMicrotasks r.1, r.2)

/-! ## Projections of the log -/

/-- The refresh credentials sent in refresh exchange calls. -/
def refreshCalls (log : List Effect) : List String :=
  log.filterMap (fun e => match e with | .refreshPost r => some r | _ => none)

/-- The types of the events dispatched on `window`. -/
def events (log : List Effect) : List String :=
  log.filterMap (fun e => match e with | .dispatchEvent t => some t | _ => none)

/-- The values assigned to `window.location.href`. -/
def navigations (log : List Effect) : List String :=
  log.filterMap (fun e => match e with | .setHref h => some h | _ => none)

/-- The configs of the calls put on the wire through `api`. -/
def requests (log : List Effect) : List RequestConfig :=
  log.filterMap (fun e => match e with | .request c => some c | _ => none)

/-- The rejections delivered to the callers of queued requests. -/
def rejections (log : List Effect) : List (RequestConfig × JsError) :=
  log.filterMap (fun e => match e with | .rejected c err => some (c, err) | _ => none)

/-! ## Auxiliary definitions -/

/-- The test of axios.js line 52 on a failure that carries a config:
`error.response?.status === 401 && !originalRequest._retry`. -/
def eligible (error : AxiosError) : Bool :=
  match error.config with
  | some originalRequest => error.status = some 401 && !originalRequest._retry
  | none => false

/-- The error object after axios.js line 64 has marked its config as retried. -/
def markRetried (error : AxiosError) : AxiosError :=
  { error with config := error.config.map (fun c => { c with _retry := true }) }

/-- The effects one terminator call appends to the log, given the current path. -/
def terminatorEffects (pathname : String) : List Effect :=
  Effect.dispatchEvent "auth-logout" ::
    (if pathname = "/login" ∨ pathname = "/register" then [] else [Effect.setHref "/login"])

/-- The effect of running one scheduled reaction, given the store and the client defaults. -/
def microtaskEffect (ls : Storage) (defaultsAuthorization : Option String) : Microtask → Effect
  | .onFulfilled originalRequest token =>
      Effect.request (requestInterceptor ls (mergeDefaults defaultsAuthorization
        { originalRequest with Authorization := some ("Bearer " ++ token.toStr) }))
  | .onRejected originalRequest err => Effect.rejected originalRequest err

/-! ## Sample inputs -/

/-- A store holding both credentials and one unrelated key. -/
def sampleStorage : Storage :=
  [("access_token", "T1"), ("refresh_token", "R1"), ("vaani_saved_schemes", "[]")]

/-- A freshly loaded module on the dashboard page, both credentials stored. -/
def sampleState : State := State.init sampleStorage "/dashboard"

/-- A request whose first attempt failed with the stale credential `T1`. -/
def sampleRequest (url : String) : RequestConfig :=
  { url := url, Authorization := some "Bearer T1", _retry := false }

/-- The 401 failure of the first attempt of a request. -/
def sampleError (url : String) : AxiosError :=
  { message := "Request failed with status code 401", config := some (sampleRequest url),
    status := some 401 }

/-- The trigger `/a` is suspended at the refresh exchange, `/b` and `/c` wait in the queue. -/
def sampleRefreshing : State :=
  (handleAll sampleState [sampleError "/a", sampleError "/b", sampleError "/c"]).1

/-- A rejection of the refresh exchange: a 401 answer of the refresh endpoint. -/
def sampleRefreshError : JsError :=
  JsError.axiosError
    { message := "Request failed with status code 401",
      config := some { url := "/api/token/refresh/", Authorization := none, _retry := false },
      status := some 401 }

/-- The state after the sample refresh succeeded with the new credential `T2`
and the trigger `/a` and the waiters `/b`, `/c` were reissued. -/
def sampleRefreshed : State :=
  (settleRefresh sampleRefreshing { sampleRequest "/a" with _retry := true }
    (.ok (RefreshData.body (JsValue.str "T2") JsValue.undefined))).1

/-- A 401 failure of a reissued call; `error.config` is the config that was on the wire. -/
def sampleSecondError (url : String) (retried : Bool) : AxiosError :=
  { message := "Request failed with status code 401",
    config := some { url := url, Authorization := some "Bearer T2", _retry := retried },
    status := some 401 }

/-! ## The authentication context (src/context/AuthContext.jsx) -/

/-- Embeds `isAuthenticated` (AuthContext.jsx lines 9-11):
`!!localStorage.getItem("access_token")`. -/
def isAuthenticated (ls : Storage) : Bool :=
  truthy (getItem ls "access_token")

/-- A call made by a page after the session ended: the caller sets no Authorization header. -/
def sampleFreshRequest : RequestConfig :=
  { url := "/api/schemes/", Authorization := none, _retry := false }

/-- The sample session is terminated after its refresh had succeeded with `T2`. -/
def sampleTerminated : State := redirectToLogin sampleRefreshed

/-- A failure without any response: a transport error on a request not yet retried. -/
def sampleNetworkError : AxiosError :=
  { message := "Network Error", config := some (sampleRequest "/a"), status := none }

/-! ## Display helpers (src/utils/safeDisplay.js) -/

/-- A JavaScript value as the display helpers see it.  A number is given by the
text `String(val)` yields for it; of an object only the property `name` is
read, so an object is either one in which `"name" in val` holds, with the value
of `val.name`, or one without that property (arrays included); `other` stands
for the values whose `typeof` is none of the tested ones (function, symbol,
bigint). -/
inductive Val where
  | undefined
  | null
  | string (s : String)
  | number (shown : String)
  | boolean (b : Bool)
  | objectWithName (name : Val)
  | objectWithoutName
  | other
  deriving DecidableEq, Repr

/-- The result of `typeof val`. -/
def Val.typeof : Val → String
  | .undefined => "undefined"
  | .null => "object"
  | .string _ => "string"
  | .number _ => "number"
  | .boolean _ => "boolean"
  | .objectWithName _ => "object"
  | .objectWithoutName => "object"
  | .other => "function"

/-- Embeds `safeStr` (safeDisplay.js lines 6-12); the result is the value the
function returns, whatever its type. -/
def safeStr (val : Val) : Val :=
  match val with
  | .undefined => Val.string ""
  | .null => Val.string ""
  | .string s => Val.string s
  | .number shown => Val.string shown
  | .boolean b => Val.string (if b then "true" else "false")
  | .objectWithName name =>
      match name with
      | .undefined => Val.string ""
      | .null => Val.string ""
      | v => v
  | .objectWithoutName => Val.string ""
  | .other => Val.string ""

/-! ## Speech helpers (src/utils/speech.js): character classes -/

/-- The character range `lo-hi` of a regular expression class, by code point. -/
def inRange (lo hi : Nat) (c : Char) : Bool :=
  decide (lo ≤ c.toNat) && decide (c.toNat ≤ hi)

/-- The class `\s` of JavaScript regular expressions (also the characters `trim` removes). -/
def isSpace (c : Char) : Bool :=
  inRange 0x09 0x0D c || c.toNat == 0x20 || c.toNat == 0xA0 || c.toNat == 0x1680 ||
    inRange 0x2000 0x200A c || c.toNat == 0x2028 || c.toNat == 0x2029 ||
    c.toNat == 0x202F || c.toNat == 0x205F || c.toNat == 0x3000 || c.toNat == 0xFEFF

/-- The class `\w` of JavaScript regular expressions: `[A-Za-z0-9_]`. -/
def isWordChar (c : Char) : Bool :=
  inRange 0x41 0x5A c || inRange 0x61 0x7A c || inRange 0x30 0x39 c || c.toNat == 0x5F

/-- The class of speech.js line 29 (Devanagari, counted for Hindi). -/
def isHindiChar (c : Char) : Bool :=
  inRange 0x901 0x97F c

/-- The class of speech.js line 30 (Tamil). -/
def isTamilChar (c : Char) : Bool :=
  inRange 0xB85 0xBB9 c || inRange 0xB80 0xBFF c

/-- The class of speech.js line 31 (Telugu). -/
def isTeluguChar (c : Char) : Bool :=
  inRange 0xC05 0xC39 c || inRange 0xC00 0xC7F c

/-- The class of speech.js line 32 (Devanagari, counted for Marathi). -/
def isMarathiChar (c : Char) : Bool :=
  inRange 0x904 0x963 c || inRange 0x964 0x97F c

/-- The class of speech.js line 33 (Bengali). -/
def isBengaliChar (c : Char) : Bool :=
  inRange 0x985 0x98C c || inRange 0x98F 0x990 c || inRange 0x993 0x9A8 c ||
    inRange 0x9AA 0x9B0 c || c.toNat == 0x9B2 || inRange 0x9B6 0x9B9 c || c.toNat == 0x9CE ||
    c.toNat == 0x9A1 || c.toNat == 0x9BC || c.toNat == 0x9A2 || c.toNat == 0x9AF ||
    inRange 0x9E6 0x9FA c

/-- The class of speech.js line 34 (Gujarati). -/
def isGujaratiChar (c : Char) : Bool :=
  inRange 0xA85 0xAB9 c || inRange 0xA80 0xAFF c

/-- The class of speech.js line 35 (Gurmukhi, counted for Punjabi), range by
range as the class is written; later repetitions of a range add nothing. -/
def isPunjabiChar (c : Char) : Bool :=
  inRange 0xA05 0xA0A c || inRange 0xA0F 0xA10 c || inRange 0xA13 0xA28 c ||
    inRange 0xA2A 0xA30 c || inRange 0xA32 0xA32 c || c.toNat == 0xA3C ||
    inRange 0xA35 0xA38 c || inRange 0xA38 0xA39 c || c.toNat == 0xA16 ||
    inRange 0xA3C 0xA5C c || c.toNat == 0xA2B || inRange 0xA2C 0xA2D c ||
    inRange 0xA23 0xA2E c || inRange 0xA1E 0xA30 c

/-- The class of speech.js line 36 (Malayalam). -/
def isMalayalamChar (c : Char) : Bool :=
  inRange 0xD05 0xD39 c || inRange 0xD00 0xD7F c

/-- The class of speech.js line 37 (Kannada). -/
def isKannadaChar (c : Char) : Bool :=
  inRange 0xC85 0xCB9 c || inRange 0xC80 0xCFF c

/-! ## Speech helpers: detectLanguage -/

/-- The object `langCounts` of speech.js lines 44-54, as its entries in
insertion order, each count being `(text.match(class) || []).length`. -/
def langCounts (text : List Char) : List (String × Nat) :=
  [ ("hi", text.countP isHindiChar),
    ("ta", text.countP isTamilChar),
    ("te", text.countP isTeluguChar),
    ("mr", text.countP isMarathiChar),
    ("bn", text.countP isBengaliChar),
    ("gu", text.countP isGujaratiChar),
    ("pa", text.countP isPunjabiChar),
    ("ml", text.countP isMalayalamChar),
    ("kn", text.countP isKannadaChar) ]

/-- The sum `totalNonEnglish` of speech.js lines 39-40. -/
def totalNonEnglish (text : List Char) : Nat :=
  text.countP isHindiChar + text.countP isTamilChar + text.countP isTeluguChar +
    text.countP isMarathiChar + text.countP isBengaliChar + text.countP isGujaratiChar +
    text.countP isPunjabiChar + text.countP isMalayalamChar + text.countP isKannadaChar

/-- The length of `text.replace(/[^\w\s]/g, "")`: the characters of `\w` and `\s`. -/
def keptLength (text : List Char) : Nat :=
  (text.filter (fun c => isWordChar c || isSpace c)).length

/-- The call `.sort(([,a], [,b]) => b - a)` of line 57: a stable sort by
descending count (an entry stays before a later entry with the same count). -/
def sortByCountDesc (entries : List (String × Nat)) : List (String × Nat) :=
  entries.insertionSort (fun a b => b.2 ≤ a.2)

/-- The test `totalNonEnglish > length * 0.3` of line 43.  The product is a
double; for every length a string can have it compares with an integer as
the exact product does, which is what is computed here. -/
def exceedsThreshold (total length : Nat) : Bool :=
  decide (3 * length < 10 * total)

/-- Embeds `detectLanguage` (speech.js lines 25-66), with the comparison of
line 43 as the parameter `exceeds`. -/
def detectLanguageWith (exceeds : Nat → Nat → Bool) (text : Val) : String :=
  match text with
  | .string s =>
      if s = "" then "en"
      else if exceeds (totalNonEnglish s.data) (keptLength s.data) then
        match (sortByCountDesc (langCounts s.data)).head? with
        | some detectedLang => if detectedLang.2 > 0 then detectedLang.1 else "en"
        | none => "en"
      else "en"
  | _ => "en"

/-- Embeds `detectLanguage` (speech.js lines 25-66). -/
def detectLanguage (text : Val) : String :=
  detectLanguageWith exceedsThreshold text

/-- The Marathi word for Marathi, written in Devanagari: U+092E U+0930 U+093E U+0920 U+0940. -/
def sampleMarathi : Val :=
  Val.string (String.mk [Char.ofNat 0x92E, Char.ofNat 0x930, Char.ofNat 0x93E,
    Char.ofNat 0x920, Char.ofNat 0x940])

/-- A Tamil word followed by an English one: U+0BA4 U+0BAE U+0BBF U+0BB4 U+0BCD, space, ok. -/
def sampleTamil : Val :=
  Val.string (String.mk [Char.ofNat 0xBA4, Char.ofNat 0xBAE, Char.ofNat 0xBBF,
    Char.ofNat 0xBB4, Char.ofNat 0xBCD, ' ', 'o', 'k'])

/-! ## Speech helpers: cleanTextForSpeech -/

/-- The call `.replace(/\*\*/g, "")` of speech.js line 8. -/
def removeDoubleStars : List Char → List Char
  | [] => []
  | '*' :: '*' :: rest => removeDoubleStars rest
  | c :: rest => c :: removeDoubleStars rest

/-- The line terminators, after which `^` matches under the flag `m`. -/
def isLineTerminator (c : Char) : Bool :=
  c.toNat == 0x0A || c.toNat == 0x0D || c.toNat == 0x2028 || c.toNat == 0x2029

/-- Where the scan of `/^#+\s*/gm` stands: between matches (knowing whether the
position is a line start), inside the `#+` of a match, or inside its `\s*`
(knowing whether the last character read was a line terminator). -/
inductive HeadingMode where
  | scan (atLineStart : Bool)
  | hashes
  | spaces (atLineStart : Bool)
  deriving DecidableEq, Repr

/-- The call `.replace(/^#+\s*/gm, "")` of speech.js line 11. -/
def stripHeadings : HeadingMode → List Char → List Char
  | _, [] => []
  | .scan atLineStart, c :: rest =>
      if atLineStart && c == '#' then stripHeadings .hashes rest
      else c :: stripHeadings (.scan (isLineTerminator c)) rest
  | .hashes, c :: rest =>
      if c == '#' then stripHeadings .hashes rest
      else if isSpace c then stripHeadings (.spaces (isLineTerminator c)) rest
      else c :: stripHeadings (.scan false) rest
  | .spaces atLineStart, c :: rest =>
      if isSpace c then stripHeadings (.spaces (isLineTerminator c)) rest
      else if atLineStart && c == '#' then stripHeadings .hashes rest
      else c :: stripHeadings (.scan false) rest

/-- The class `[-–—]` of speech.js line 13: hyphen, en dash, em dash. -/
def isDash (c : Char) : Bool :=
  c.toNat == 0x2D || c.toNat == 0x2013 || c.toNat == 0x2014

/-- The call `.replace(/[-–—]\s/g, " ")` of speech.js line 13. -/
def replaceDashSpace : List Char → List Char
  | [] => []
  | [c] => [c]
  | c :: d :: rest =>
      if isDash c && isSpace d then ' ' :: replaceDashSpace rest
      else c :: replaceDashSpace (d :: rest)

/-- Whether `/https?:\/\/[^\s]+/` matches at the start of the text. -/
def startsUrl : List Char → Bool
  | 'h' :: 't' :: 't' :: 'p' :: ':' :: '/' :: '/' :: c :: _ => !isSpace c
  | 'h' :: 't' :: 't' :: 'p' :: 's' :: ':' :: '/' :: '/' :: c :: _ => !isSpace c
  | _ => false

/-- The call `.replace(/https?:\/\/[^\s]+/g, "")` of speech.js line 14.  The
flag says whether the scan is inside a match: a match runs on through `[^\s]+`
up to the next character of `\s` or the end. -/
def stripUrls : Bool → List Char → List Char
  | _, [] => []
  | true, c :: rest => if isSpace c then c :: stripUrls false rest else stripUrls true rest
  | false, c :: rest =>
      if startsUrl (c :: rest) then stripUrls true rest else c :: stripUrls false rest

/-- A call `.replace(/[class]+/g, rep)`: every maximal run of characters of the
class `q` is replaced by `rep`.  The flag says whether the scan is inside a run. -/
def collapseRuns (q : Char → Bool) (rep : List Char) : Bool → List Char → List Char
  | _, [] => []
  | inRun, c :: rest =>
      if q c then
        if inRun then collapseRuns q rep true rest else rep ++ collapseRuns q rep true rest
      else c :: collapseRuns q rep false rest

/-- The call `.trim()`. -/
def trim (text : List Char) : List Char :=
  (text.dropWhile isSpace).rdropWhile isSpace

/-- The chain of replacements of speech.js lines 7-17 on the characters of a string. -/
def cleanChars (text : List Char) : List Char :=
  let t := removeDoubleStars text
  let t := t.filter (fun c => c != '*')
  let t := t.filter (fun c => c != '_')
  let t := stripHeadings (.scan true) t
  let t := t.filter (fun c => c.toNat != 0x2022)
  let t := replaceDashSpace t
  let t := stripUrls false t
  let t := collapseRuns (fun c => c == '\n') ['.', ' '] false t
  let t := collapseRuns isSpace [' '] false t
  trim t

/-- Embeds `cleanTextForSpeech` (speech.js lines 5-18). -/
def cleanTextForSpeech (text : Val) : String :=
  match text with
  | .string s => String.mk (cleanChars s.data)
  | _ => ""

/-- The characters of `http://`. -/
def httpScheme : List Char := ['h', 't', 't', 'p', ':', '/', '/']

/-- The characters of `https://`. -/
def httpsScheme : List Char := ['h', 't', 't', 'p', 's', ':', '/', '/']

/-- A character of at least one of the nine classes of speech.js lines 29-37. -/
def isIndicChar (c : Char) : Bool :=
  isHindiChar c || isTamilChar c || isTeluguChar c || isMarathiChar c || isBengaliChar c ||
    isGujaratiChar c || isPunjabiChar c || isMalayalamChar c || isKannadaChar c

/-- One Tamil letter (U+0B85) followed by three Latin letters. -/
def sampleMostlyLatin : Val :=
  Val.string (String.mk [Char.ofNat 0xB85, 'a', 'b', 'c'])

/-! ## Reachable states -/

/-- The states in which the module can be observed at a suspension point: the
state of the freshly loaded module, and every state reached from one of these
by a failed response going through the handler, by a refresh exchange settling,
by a page issuing a request, or by other code of the page writing the store or
changing the path.  A settled exchange is admitted in every state and for every
request, which only adds states. -/
inductive Reachable : State → Prop where
  | loaded (ls : Storage) (pathname : String) : Reachable (State.init ls pathname)
  | failure (s : State) (error : AxiosError) : Reachable s → Reachable (handle s error).1
  | settled (s : State) (originalRequest : RequestConfig)
      (result : Except JsError RefreshData) :
      Reachable s → Reachable (settleRefresh s originalRequest result).1
  | request (s : State) (config : RequestConfig) : Reachable s → Reachable (api s config)
  | environment (s : State) (ls : Storage) (pathname : String) :
      Reachable s → Reachable { s with localStorage := ls, pathname := pathname }

/-- The sample module after one failure was handled with an empty store, on the login page. -/
def sampleLoggedOut : State :=
  (handle (State.init [] "/login") (sampleError "/a")).1

/-! ## Saved schemes (src/pages/Schemes.jsx) -/

/-- A value as `JSON.parse` delivers it in the saved list.  A finite number is
given by the text `String(n)` yields for it; `nonFinite` is `Infinity` or
`-Infinity`, which `JSON.parse` yields for a number literal beyond the range of
a double, such as `1e999`; `composite` is an array or an object all of whose
numbers are finite, given by its JSON text. -/
inductive JsonValue where
  | null
  | boolean (b : Bool)
  | number (shown : String)
  | nonFinite (negative : Bool)
  | string (s : String)
  | composite (text : String)
  deriving DecidableEq, Repr

/-- The comparison SameValueZero used by `Set`: arrays and objects are compared by
reference, and every array or object read from JSON text is a new one. -/
def sameValueZero (a b : JsonValue) : Bool :=
  match a, b with
  | .composite _, _ => false
  | _, .composite _ => false
  | a, b => decide (a = b)

/-- A `Set`, as the list of its members in insertion order: `set.has(v)`. -/
def setHas (set : List JsonValue) (v : JsonValue) : Bool :=
  set.any (fun x => sameValueZero x v)

/-- The call `set.add(v)`. -/
def setAdd (set : List JsonValue) (v : JsonValue) : List JsonValue :=
  if setHas set v then set else set ++ [v]

/-- The call `set.delete(v)`. -/
def setDelete (set : List JsonValue) (v : JsonValue) : List JsonValue :=
  set.filter (fun x => !sameValueZero x v)

/-- The call `new Set(arr)`. -/
def newSet (arr : List JsonValue) : List JsonValue :=
  arr.foldl setAdd []

/-- The string stored under `vaani_saved_schemes`, by what `JSON.parse` makes of it. -/
inductive Raw where
  /-- The empty string, which is falsy and is not parsed. -/
  | empty
  /-- A text on which `JSON.parse` throws. -/
  | malformed
  /-- The JSON text of a value that is not an array. -/
  | notArray
  /-- The JSON text of an array with these items. -/
  | array (items : List JsonValue)
  deriving DecidableEq, Repr

/-- What `JSON.parse` reads back for a value `JSON.stringify` has written:
`JSON.stringify` writes `Infinity` and `-Infinity` as `null`. -/
def reread : JsonValue → JsonValue
  | .nonFinite _ => JsonValue.null
  | v => v

/-- The text `JSON.stringify([...set])`, by what `JSON.parse` makes of it. -/
def stringifySet (set : List JsonValue) : Raw :=
  Raw.array (set.map reread)

/-- Embeds `getSavedIds` (Schemes.jsx lines 11-19); the argument is the result
of `localStorage.getItem(SAVED_KEY)`, `none` being `null`. -/
def getSavedIds (raw : Option Raw) : List JsonValue :=
  match raw with
  | none => newSet []
  | some Raw.empty => newSet []
  | some Raw.malformed => []
  | some Raw.notArray => newSet []
  | some (Raw.array arr) => newSet arr

/-- Embeds `toggleSaved` (Schemes.jsx lines 21-30): the new content of the key
and the returned set. -/
def toggleSaved (id : JsonValue) (raw : Option Raw) : Option Raw × List JsonValue :=
  let set := getSavedIds raw
  let set := if setHas set id then setDelete set id else setAdd set id
  (some (stringifySet set), set)

/-- An id that is a string or a finite number. -/
def isId : JsonValue → Bool
  | .string _ => true
  | .number _ => true
  | _ => false

/-- The text as it is after the replacement of line 14 (the removal of URLs)
and before the replacement of line breaks of line 15. -/
def beforeLineBreaks (text : List Char) : List Char :=
  let t := removeDoubleStars text
  let t := t.filter (fun c => c != '*')
  let t := t.filter (fun c => c != '_')
  let t := stripHeadings (.scan true) t
  let t := t.filter (fun c => c.toNat != 0x2022)
  let t := replaceDashSpace t
  stripUrls false t

/-! # Theorems -/

/-! ## Facts about the store -/

theorem lookup_cons_ne {key k : String} (v : String) (rest : Storage) (h : key ≠ k) :
    List.lookup key ((k, v) :: rest) = List.lookup key rest := by
  have hk : (key == k) = false := beq_eq_false_iff_ne.mpr h
  simp [List.lookup_cons, hk]

theorem getItem_removeItem_self (ls : Storage) (key : String) :
    getItem (removeItem ls key) key = none := by
  induction ls with
  | nil => rfl
  | cons kv rest ih =>
    obtain ⟨k, v⟩ := kv
    by_cases h : k = key
    · simpa [removeItem, List.filter_cons, h] using ih
    · have h2 : key ≠ k := fun e => h e.symm
      simpa [removeItem, getItem, List.filter_cons, h, lookup_cons_ne v _ h2] using ih

theorem getItem_removeItem_of_ne (ls : Storage) {key other : String} (h : other ≠ key) :
    getItem (removeItem ls key) other = getItem ls other := by
  induction ls with
  | nil => rfl
  | cons kv rest ih =>
    obtain ⟨k, v⟩ := kv
    by_cases hk : k = key
    · subst hk
      simpa [removeItem, getItem, List.filter_cons, lookup_cons_ne v _ h] using ih
    · by_cases hok : other = k
      · simp [removeItem, getItem, List.filter_cons, hk, List.lookup_cons, hok]
      · simpa [removeItem, getItem, List.filter_cons, hk, lookup_cons_ne v _ hok] using ih

theorem getItem_setItem_self (ls : Storage) (key value : String) :
    getItem (setItem ls key value) key = some value := by
  simp [setItem, getItem, List.lookup_cons]

theorem getItem_setItem_of_ne (ls : Storage) {key other : String} (value : String)
    (h : other ≠ key) : getItem (setItem ls key value) other = getItem ls other := by
  simpa [setItem, getItem, lookup_cons_ne value _ h] using getItem_removeItem_of_ne ls h

theorem removeItem_removeItem_self (ls : Storage) (key : String) :
    removeItem (removeItem ls key) key = removeItem ls key := by
  simp [removeItem, List.filter_filter]

theorem removeItem_comm (ls : Storage) (a b : String) :
    removeItem (removeItem ls a) b = removeItem (removeItem ls b) a := by
  simp [removeItem, List.filter_filter, Bool.and_comm]

/-! ## Facts about the log projections -/

@[simp] theorem refreshCalls_append (a b : List Effect) :
    refreshCalls (a ++ b) = refreshCalls a ++ refreshCalls b := by
  simp [refreshCalls, List.filterMap_append]

@[simp] theorem events_append (a b : List Effect) :
    events (a ++ b) = events a ++ events b := by
  simp [events, List.filterMap_append]

@[simp] theorem navigations_append (a b : List Effect) :
    navigations (a ++ b) = navigations a ++ navigations b := by
  simp [navigations, List.filterMap_append]

@[simp] theorem requests_append (a b : List Effect) :
    requests (a ++ b) = requests a ++ requests b := by
  simp [requests, List.filterMap_append]

@[simp] theorem rejections_append (a b : List Effect) :
    rejections (a ++ b) = rejections a ++ rejections b := by
  simp [rejections, List.filterMap_append]

/-! ## Facts about the session terminator -/

theorem redirectToLogin_eq (s : State) :
    redirectToLogin s =
      { s with
        localStorage := removeItem (removeItem s.localStorage "access_token") "refresh_token"
        log := s.log ++ terminatorEffects s.pathname } := by
  unfold redirectToLogin terminatorEffects
  by_cases h1 : s.pathname = "/login"
  · simp [h1]
  · by_cases h2 : s.pathname = "/register"
    · simp [h2]
    · simp [h1, h2]

@[simp] theorem events_terminatorEffects (p : String) :
    events (terminatorEffects p) = ["auth-logout"] := by
  unfold terminatorEffects
  split <;> simp [events]

@[simp] theorem refreshCalls_terminatorEffects (p : String) :
    refreshCalls (terminatorEffects p) = [] := by
  unfold terminatorEffects
  split <;> simp [refreshCalls]

@[simp] theorem requests_terminatorEffects (p : String) :
    requests (terminatorEffects p) = [] := by
  unfold terminatorEffects
  split <;> simp [requests]

@[simp] theorem rejections_terminatorEffects (p : String) :
    rejections (terminatorEffects p) = [] := by
  unfold terminatorEffects
  split <;> simp [rejections]

theorem navigations_terminatorEffects (p : String) :
    navigations (terminatorEffects p) =
      if p = "/login" ∨ p = "/register" then [] else ["/login"] := by
  unfold terminatorEffects
  split <;> simp [navigations]

theorem getItem_cleared_access (ls : Storage) :
    getItem (removeItem (removeItem ls "access_token") "refresh_token") "access_token" = none := by
  rw [getItem_removeItem_of_ne _ (by decide), getItem_removeItem_self]

theorem getItem_cleared_refresh (ls : Storage) :
    getItem (removeItem (removeItem ls "access_token") "refresh_token") "refresh_token" = none :=
  getItem_removeItem_self _ _

theorem getItem_cleared_other (ls : Storage) {key : String}
    (ha : key ≠ "access_token") (hr : key ≠ "refresh_token") :
    getItem (removeItem (removeItem ls "access_token") "refresh_token") key = getItem ls key := by
  rw [getItem_removeItem_of_ne _ hr, getItem_removeItem_of_ne _ ha]

theorem cleared_cleared (ls : Storage) :
    removeItem (removeItem (removeItem (removeItem ls "access_token") "refresh_token")
      "access_token") "refresh_token" =
      removeItem (removeItem ls "access_token") "refresh_token" := by
  rw [removeItem_comm (removeItem ls "access_token") "refresh_token" "access_token",
    removeItem_removeItem_self, removeItem_removeItem_self]

/-! ## The session terminator: C8, C9, C10 -/

/-- C8. For every prior content of the store, one call of the session terminator
`redirectToLogin` leaves the access and the refresh credential absent, leaves
the value of every other key as it was, and dispatches the `auth-logout` event
exactly once. -/
theorem terminator_postcondition (s : State) :
    getItem (redirectToLogin s).localStorage "access_token" = none ∧
    getItem (redirectToLogin s).localStorage "refresh_token" = none ∧
    (∀ key : String, key ≠ "access_token" → key ≠ "refresh_token" →
      getItem (redirectToLogin s).localStorage key = getItem s.localStorage key) ∧
    events (redirectToLogin s).log = events s.log ++ ["auth-logout"] := by
  rw [redirectToLogin_eq]
  refine ⟨getItem_cleared_access _, getItem_cleared_refresh _, ?_, ?_⟩
  · intro key ha hr
    exact getItem_cleared_other _ ha hr
  · simp

/-- C9 as stated fails: on the page `/dashboard` one terminator call assigns
`window.location.href = "/login"`, so the location does not stay as it was. -/
theorem terminator_navigates_from_dashboard :
    navigations (redirectToLogin sampleState).log = ["/login"] ∧
    navigations (redirectToLogin sampleState).log ≠ navigations sampleState.log := by
  decide

/-- C9 amended. A terminator call leaves the location alone exactly when the
current path is `/login` or `/register`; on every other path it assigns
`/login` to `window.location.href`.  Apart from that assignment it only clears
the two credentials and dispatches the `auth-logout` event: the refreshing
flag, the waiter queue, the client defaults, the path read and the pending
microtasks are unchanged. -/
theorem terminator_navigation (s : State) :
    navigations (redirectToLogin s).log =
      navigations s.log ++
        (if s.pathname = "/login" ∨ s.pathname = "/register" then [] else ["/login"]) ∧
    redirectToLogin s =
      { s with
        localStorage := removeItem (removeItem s.localStorage "access_token") "refresh_token"
        log := s.log ++ Effect.dispatchEvent "auth-logout" ::
          (if s.pathname = "/login" ∨ s.pathname = "/register" then []
           else [Effect.setHref "/login"]) } := by
  constructor
  · rw [redirectToLogin_eq]
    simp [navigations_terminatorEffects]
  · rw [redirectToLogin_eq]
    rfl

/-- C10 as stated fails: a second terminator call directly after a first
dispatches the `auth-logout` event a second time. -/
theorem terminator_twice_signals_twice :
    events (redirectToLogin sampleState).log = ["auth-logout"] ∧
    events (redirectToLogin (redirectToLogin sampleState)).log =
      ["auth-logout", "auth-logout"] := by
  decide

/-- C10 amended. A second terminator call directly after a first leaves the
store exactly as the first call left it, with both credentials absent, and
dispatches the `auth-logout` event once more: every call dispatches it once. -/
theorem terminator_twice (s : State) :
    (redirectToLogin (redirectToLogin s)).localStorage = (redirectToLogin s).localStorage ∧
    getItem (redirectToLogin (redirectToLogin s)).localStorage "access_token" = none ∧
    getItem (redirectToLogin (redirectToLogin s)).localStorage "refresh_token" = none ∧
    events (redirectToLogin (redirectToLogin s)).log =
      events (redirectToLogin s).log ++ ["auth-logout"] := by
  have h : (redirectToLogin (redirectToLogin s)).localStorage =
      (redirectToLogin s).localStorage := by
    rw [redirectToLogin_eq (redirectToLogin s), redirectToLogin_eq s]
    exact cleared_cleared _
  refine ⟨h, ?_, ?_, ?_⟩
  · rw [h, redirectToLogin_eq]
    exact getItem_cleared_access _
  · rw [h, redirectToLogin_eq]
    exact getItem_cleared_refresh _
  · rw [redirectToLogin_eq (redirectToLogin s)]
    simp

/-! ## Facts about the microtasks -/

theorem runMicrotask_eq (s : State) (t : Microtask) :
    runMicrotask s t =
      { s with log := s.log ++ [microtaskEffect s.localStorage s.defaultsAuthorization t] } := by
  cases t <;> rfl

theorem foldl_runMicrotask (tasks : List Microtask) (s : State) :
    tasks.foldl runMicrotask s =
      { s with log := s.log ++
          tasks.map (microtaskEffect s.localStorage s.defaultsAuthorization) } := by
  induction tasks generalizing s with
  | nil => simp
  | cons t rest ih =>
    rw [List.foldl_cons, ih, runMicrotask_eq]
    simp

theorem drainMicrotasks_eq (s : State) :
    drainMicrotasks s =
      { s with
        microtasks := []
        log := s.log ++
          s.microtasks.map (microtaskEffect s.localStorage s.defaultsAuthorization) } := by
  unfold drainMicrotasks
  rw [foldl_runMicrotask]

theorem refreshCalls_microtasks (ls : Storage) (d : Option String) (tasks : List Microtask) :
    refreshCalls (tasks.map (microtaskEffect ls d)) = [] := by
  induction tasks with
  | nil => rfl
  | cons t rest ih =>
    cases t <;> simpa [refreshCalls, microtaskEffect] using ih

theorem events_microtasks (ls : Storage) (d : Option String) (tasks : List Microtask) :
    events (tasks.map (microtaskEffect ls d)) = [] := by
  induction tasks with
  | nil => rfl
  | cons t rest ih =>
    cases t <;> simpa [events, microtaskEffect] using ih

/-- The request interceptor leaves a header that already carries the stored credential. -/
theorem sent_with_stored_credential (ls : Storage) (d : Option String) (c : RequestConfig)
    (T : String) :
    requestInterceptor (setItem ls "access_token" T)
        (mergeDefaults d { c with Authorization := some ("Bearer " ++ T) }) =
      { c with Authorization := some ("Bearer " ++ T) } := by
  unfold requestInterceptor
  rw [getItem_setItem_self]
  by_cases h : T = ""
  · simp [truthy, mergeDefaults, h]
  · simp [truthy, mergeDefaults, h]

theorem requests_resolved (ls : Storage) (d : Option String) (T : String) (q : List Waiter) :
    requests ((q.map (settle none (JsValue.str T))).map
        (microtaskEffect (setItem ls "access_token" T) d)) =
      q.map (fun w => { w.originalRequest with Authorization := some ("Bearer " ++ T) }) := by
  induction q with
  | nil => rfl
  | cons w rest ih =>
    simp only [List.map_cons, settle, microtaskEffect, JsValue.toStr,
      sent_with_stored_credential]
    simpa [requests] using ih

theorem rejections_resolved (ls : Storage) (d : Option String) (tok : JsValue)
    (q : List Waiter) :
    rejections ((q.map (settle none tok)).map (microtaskEffect ls d)) = [] := by
  induction q with
  | nil => rfl
  | cons w rest ih => simp [rejections, settle, microtaskEffect]

theorem requests_rejected (ls : Storage) (d : Option String) (e : JsError) (tok : JsValue)
    (q : List Waiter) :
    requests ((q.map (settle (some e) tok)).map (microtaskEffect ls d)) = [] := by
  induction q with
  | nil => rfl
  | cons w rest ih => simp [requests, settle, microtaskEffect]

theorem rejections_rejected (ls : Storage) (d : Option String) (e : JsError) (tok : JsValue)
    (q : List Waiter) :
    rejections ((q.map (settle (some e) tok)).map (microtaskEffect ls d)) =
      q.map (fun w => (w.originalRequest, e)) := by
  induction q with
  | nil => rfl
  | cons w rest ih => simpa [rejections, settle, microtaskEffect] using ih

/-! ## Facts about the resumed handler -/

theorem afterRefresh_body (s : State) (originalRequest : RequestConfig)
    (access refresh : JsValue) :
    afterRefresh s originalRequest (.ok (RefreshData.body access refresh)) =
      ({ s with
          isRefreshing := false
          failedQueue := []
          localStorage := setItem s.localStorage "access_token" access.toStr
          defaultsAuthorization := some ("Bearer " ++ access.toStr)
          microtasks := s.microtasks ++ s.failedQueue.map
            (settle none (if access = JsValue.undefined then JsValue.null else access))
          log := s.log ++ [Effect.request
            (requestInterceptor (setItem s.localStorage "access_token" access.toStr)
              (mergeDefaults (some ("Bearer " ++ access.toStr))
                { originalRequest with Authorization := some ("Bearer " ++ access.toStr) }))] },
        Outcome.reissued
          { originalRequest with Authorization := some ("Bearer " ++ access.toStr) }) := by
  rfl

theorem afterRefresh_caught (s : State) (originalRequest : RequestConfig)
    (result : Except JsError RefreshData) (refreshError : JsError)
    (h : tryBlock s originalRequest result = .error refreshError) :
    afterRefresh s originalRequest result =
      ({ s with
          isRefreshing := false
          failedQueue := []
          localStorage := removeItem (removeItem s.localStorage "access_token") "refresh_token"
          microtasks := s.microtasks ++
            s.failedQueue.map (settle (some refreshError) JsValue.null)
          log := s.log ++ terminatorEffects s.pathname },
        Outcome.rejected refreshError) := by
  unfold afterRefresh
  rw [h]
  simp only [catchBlock, redirectToLogin_eq, processQueue]
  rfl

theorem settleRefresh_eq (s : State) (originalRequest : RequestConfig)
    (result : Except JsError RefreshData) :
    settleRefresh s originalRequest result =
      (drainMicrotasks (afterRefresh s originalRequest result).1,
        (afterRefresh s originalRequest result).2) := rfl

theorem handle_eq (s : State) (error : AxiosError) :
    handle s error = (drainMicrotasks (onRejected s error).1, (onRejected s error).2) := rfl

/-! ## The refresh exchange settles: C3, C4 -/

/-- C3. When the refresh exchange succeeds with a body whose access credential
is the string `T`, then for every queue of waiters (any length, also empty)
the stored access credential becomes `T`, the triggering request and every
waiting request is put on the wire exactly once, each carrying the header
`Authorization: Bearer T`, and nothing else is requested; the handler of the
trigger returns the reissued call and no waiter is rejected. -/
theorem fan_out_success (s : State) (originalRequest : RequestConfig) (T : String)
    (refresh : JsValue) (hs : s.microtasks = []) :
    getItem (settleRefresh s originalRequest
        (.ok (RefreshData.body (JsValue.str T) refresh))).1.localStorage "access_token" =
      some T ∧
    requests (settleRefresh s originalRequest
        (.ok (RefreshData.body (JsValue.str T) refresh))).1.log =
      requests s.log ++
        ({ originalRequest with Authorization := some ("Bearer " ++ T) } ::
          s.failedQueue.map
            (fun w => { w.originalRequest with Authorization := some ("Bearer " ++ T) })) ∧
    (settleRefresh s originalRequest (.ok (RefreshData.body (JsValue.str T) refresh))).2 =
      Outcome.reissued { originalRequest with Authorization := some ("Bearer " ++ T) } ∧
    rejections (settleRefresh s originalRequest
        (.ok (RefreshData.body (JsValue.str T) refresh))).1.log = rejections s.log := by
  rw [settleRefresh_eq, afterRefresh_body, drainMicrotasks_eq]
  simp only [hs, List.nil_append, JsValue.toStr, if_neg (show JsValue.str T ≠ JsValue.undefined
    from fun h => JsValue.noConfusion h)]
  refine ⟨getItem_setItem_self _ _ _, ?_, trivial, ?_⟩
  · rw [requests_append, requests_append, requests_resolved, sent_with_stored_credential]
    simp [requests]
  · rw [rejections_append, rejections_append, rejections_resolved]
    simp [rejections]

/-- Witness of C3: the trigger `/a` and the two waiters `/b`, `/c`, refresh answering `T2`. -/
theorem fan_out_success_witness :
    sampleRefreshing.microtasks = [] ∧
    requests (settleRefresh sampleRefreshing { sampleRequest "/a" with _retry := true }
        (.ok (RefreshData.body (JsValue.str "T2") JsValue.undefined))).1.log =
      [ { url := "/a", Authorization := some "Bearer T2", _retry := true },
        { url := "/b", Authorization := some "Bearer T2", _retry := false },
        { url := "/c", Authorization := some "Bearer T2", _retry := false } ] :=
  ⟨by decide,
    (fan_out_success sampleRefreshing { sampleRequest "/a" with _retry := true } "T2"
      JsValue.undefined (by decide)).2.1.trans (by decide)⟩

/-- C4. When the refresh exchange fails with any rejection `refreshError` (a
401 answer of the refresh endpoint included), then for every queue of waiters
(any length, also empty) the handler of the trigger is rejected, every waiter
is rejected with that same `refreshError`, no request at all is reissued, the
queue is left empty, and the session terminator runs exactly once: one
`auth-logout` event, whatever the number of waiters. -/
theorem fan_out_failure (s : State) (originalRequest : RequestConfig) (refreshError : JsError)
    (hs : s.microtasks = []) :
    (settleRefresh s originalRequest (.error refreshError)).2 = Outcome.rejected refreshError ∧
    rejections (settleRefresh s originalRequest (.error refreshError)).1.log =
      rejections s.log ++ s.failedQueue.map (fun w => (w.originalRequest, refreshError)) ∧
    requests (settleRefresh s originalRequest (.error refreshError)).1.log = requests s.log ∧
    events (settleRefresh s originalRequest (.error refreshError)).1.log =
      events s.log ++ ["auth-logout"] ∧
    (settleRefresh s originalRequest (.error refreshError)).1.failedQueue = [] ∧
    getItem (settleRefresh s originalRequest (.error refreshError)).1.localStorage
      "access_token" = none ∧
    getItem (settleRefresh s originalRequest (.error refreshError)).1.localStorage
      "refresh_token" = none := by
  rw [settleRefresh_eq,
    afterRefresh_caught s originalRequest (.error refreshError) refreshError rfl,
    drainMicrotasks_eq]
  simp only [hs, List.nil_append]
  refine ⟨trivial, ?_, ?_, ?_, trivial, getItem_cleared_access _, getItem_cleared_refresh _⟩
  · rw [rejections_append, rejections_append, rejections_rejected]
    simp
  · rw [requests_append, requests_append, requests_rejected]
    simp
  · rw [events_append, events_append, events_microtasks]
    simp

/-- Witness of C4: the trigger `/a` and the two waiters `/b`, `/c`, refresh answering 401. -/
theorem fan_out_failure_witness :
    sampleRefreshing.microtasks = [] ∧
    rejections (settleRefresh sampleRefreshing { sampleRequest "/a" with _retry := true }
        (.error sampleRefreshError)).1.log =
      [(sampleRequest "/b", sampleRefreshError), (sampleRequest "/c", sampleRefreshError)] ∧
    events (settleRefresh sampleRefreshing { sampleRequest "/a" with _retry := true }
        (.error sampleRefreshError)).1.log = ["auth-logout"] :=
  ⟨by decide,
    (fan_out_failure sampleRefreshing { sampleRequest "/a" with _retry := true }
      sampleRefreshError (by decide)).2.1.trans (by decide),
    (fan_out_failure sampleRefreshing { sampleRequest "/a" with _retry := true }
      sampleRefreshError (by decide)).2.2.2.1.trans (by decide)⟩

/-! ## Facts about the synchronous section of the handler -/

theorem eligible_iff (error : AxiosError) :
    eligible error = true ↔
      ∃ c, error.config = some c ∧ error.status = some 401 ∧ c._retry = false := by
  unfold eligible
  cases hc : error.config with
  | none => simp
  | some c => simp

theorem onRejected_queued (s : State) (error : AxiosError) (c : RequestConfig)
    (hc : error.config = some c) (h401 : error.status = some 401) (hr : c._retry = false)
    (hq : s.isRefreshing = true) :
    onRejected s error =
      ({ s with failedQueue := s.failedQueue ++ [{ originalRequest := c }] },
        Outcome.queued) := by
  unfold onRejected
  simp [hc, h401, hr, hq]

theorem onRejected_trigger (s : State) (error : AxiosError) (c : RequestConfig)
    (hc : error.config = some c) (h401 : error.status = some 401) (hr : c._retry = false)
    (hq : s.isRefreshing = false)
    (ht : truthy (getItem s.localStorage "refresh_token") = true) :
    onRejected s error =
      ({ s with
          isRefreshing := true
          log := s.log ++
            [Effect.refreshPost ((getItem s.localStorage "refresh_token").getD "")] },
        Outcome.awaitingRefresh { c with _retry := true }) := by
  unfold onRejected
  simp [hc, h401, hr, hq, ht]

theorem onRejected_no_credential (s : State) (error : AxiosError) (c : RequestConfig)
    (hc : error.config = some c) (h401 : error.status = some 401) (hr : c._retry = false)
    (hq : s.isRefreshing = false)
    (ht : truthy (getItem s.localStorage "refresh_token") = false) :
    onRejected s error =
      ({ s with
          isRefreshing := false
          failedQueue := []
          localStorage := removeItem (removeItem s.localStorage "access_token") "refresh_token"
          microtasks := s.microtasks ++ s.failedQueue.map
            (settle (some (JsError.axiosError (markRetried error))) JsValue.null)
          log := s.log ++ terminatorEffects s.pathname },
        Outcome.rejected (JsError.axiosError (markRetried error))) := by
  unfold onRejected
  simp only [hc, h401, hr, hq, ht, redirectToLogin_eq, processQueue, markRetried]
  simp

theorem handleAll_cons (s : State) (error : AxiosError) (rest : List AxiosError) :
    handleAll s (error :: rest) =
      ((handleAll (handle s error).1 rest).1,
        (handle s error).2 :: (handleAll (handle s error).1 rest).2) := rfl

theorem handle_queued (s : State) (error : AxiosError) (he : eligible error = true)
    (hq : s.isRefreshing = true) :
    (handle s error).2 = Outcome.queued ∧
    (handle s error).1.isRefreshing = true ∧
    refreshCalls (handle s error).1.log = refreshCalls s.log := by
  obtain ⟨c, hc, h401, hr⟩ := (eligible_iff error).mp he
  rw [handle_eq, onRejected_queued s error c hc h401 hr hq, drainMicrotasks_eq]
  refine ⟨rfl, hq, ?_⟩
  dsimp only
  rw [refreshCalls_append, refreshCalls_microtasks, List.append_nil]

theorem handleAll_refreshing (errors : List AxiosError) (s : State)
    (hq : s.isRefreshing = true) (hall : ∀ e ∈ errors, eligible e = true) :
    (handleAll s errors).1.isRefreshing = true ∧
    refreshCalls (handleAll s errors).1.log = refreshCalls s.log ∧
    (handleAll s errors).2 = List.replicate errors.length Outcome.queued := by
  induction errors generalizing s with
  | nil => exact ⟨hq, rfl, rfl⟩
  | cons e rest ih =>
    obtain ⟨ho, hq1, hlog⟩ := handle_queued s e (hall e (List.mem_cons_self _ _)) hq
    obtain ⟨h1, h2, h3⟩ := ih (handle s e).1 hq1
      (fun x hx => hall x (List.mem_cons_of_mem _ hx))
    rw [handleAll_cons]
    refine ⟨h1, h2.trans hlog, ?_⟩
    simp [ho, h3, List.replicate_succ]

theorem handle_trigger (s : State) (error : AxiosError) (c : RequestConfig)
    (hc : error.config = some c) (h401 : error.status = some 401) (hr : c._retry = false)
    (hq : s.isRefreshing = false)
    (ht : truthy (getItem s.localStorage "refresh_token") = true) :
    (handle s error).2 = Outcome.awaitingRefresh { c with _retry := true } ∧
    (handle s error).1.isRefreshing = true ∧
    refreshCalls (handle s error).1.log =
      refreshCalls s.log ++ [(getItem s.localStorage "refresh_token").getD ""] := by
  rw [handle_eq, onRejected_trigger s error c hc h401 hr hq ht, drainMicrotasks_eq]
  refine ⟨rfl, rfl, ?_⟩
  dsimp only
  rw [refreshCalls_append, refreshCalls_append, refreshCalls_microtasks, List.append_nil]
  rfl

theorem handle_no_credential (s : State) (error : AxiosError) (he : eligible error = true)
    (hq : s.isRefreshing = false)
    (ht : truthy (getItem s.localStorage "refresh_token") = false) :
    (handle s error).2 = Outcome.rejected (JsError.axiosError (markRetried error)) ∧
    (handle s error).1.isRefreshing = false ∧
    truthy (getItem (handle s error).1.localStorage "refresh_token") = false ∧
    refreshCalls (handle s error).1.log = refreshCalls s.log ∧
    events (handle s error).1.log = events s.log ++ ["auth-logout"] := by
  obtain ⟨c, hc, h401, hr⟩ := (eligible_iff error).mp he
  rw [handle_eq, onRejected_no_credential s error c hc h401 hr hq ht, drainMicrotasks_eq]
  refine ⟨rfl, rfl, ?_, ?_, ?_⟩
  · show truthy (getItem (removeItem (removeItem s.localStorage "access_token")
      "refresh_token") "refresh_token") = false
    rw [getItem_cleared_refresh]
    rfl
  · dsimp only
    rw [refreshCalls_append, refreshCalls_append, refreshCalls_microtasks,
      refreshCalls_terminatorEffects, List.append_nil, List.append_nil]
  · dsimp only
    rw [events_append, events_append, events_microtasks, events_terminatorEffects,
      List.append_nil]

/-! ## Failures reaching the interceptor: C1, C2, C5, C6, C7 -/

/-- C1. Single-flight.  With a non-empty refresh credential stored and the
coordinator idle, when the 401 failures of a first request and of any number
of further requests (so for every N at least 1, in particular at least 2) reach
the response interceptor before the refresh exchange settles, exactly one
refresh exchange call is added to the log, carrying the stored refresh
credential: the handler of the first failure issues it and suspends on it,
every other handler only queues its request, and the coordinator is left
refreshing. -/
theorem single_flight (s : State) (first : AxiosError) (rest : List AxiosError)
    (hq : s.isRefreshing = false)
    (ht : truthy (getItem s.localStorage "refresh_token") = true)
    (hfirst : eligible first = true) (hrest : ∀ e ∈ rest, eligible e = true) :
    refreshCalls (handleAll s (first :: rest)).1.log =
      refreshCalls s.log ++ [(getItem s.localStorage "refresh_token").getD ""] ∧
    (∃ c, first.config = some c ∧
      (handleAll s (first :: rest)).2 =
        Outcome.awaitingRefresh { c with _retry := true } ::
          List.replicate rest.length Outcome.queued) ∧
    (handleAll s (first :: rest)).1.isRefreshing = true := by
  obtain ⟨c, hc, h401, hr⟩ := (eligible_iff first).mp hfirst
  obtain ⟨ho, hq1, hlog⟩ := handle_trigger s first c hc h401 hr hq ht
  obtain ⟨h1, h2, h3⟩ := handleAll_refreshing rest (handle s first).1 hq1 hrest
  rw [handleAll_cons]
  refine ⟨h2.trans hlog, ⟨c, hc, ?_⟩, h1⟩
  simp [ho, h3]

/-- Witness of C1: three requests fail with 401 at once; one exchange carrying `R1`. -/
theorem single_flight_witness :
    refreshCalls (handleAll sampleState
      [sampleError "/a", sampleError "/b", sampleError "/c"]).1.log = ["R1"] :=
  (single_flight sampleState (sampleError "/a") [sampleError "/b", sampleError "/c"]
    (by decide) (by decide) (by decide) (by decide)).1

/-- C2 fails on the code for a request that waited in the queue.  The trigger
`/a` and the waiters `/b`, `/c` are reissued after a successful refresh; the
reissued `/a` carries the retried marker, the reissued `/b` does not.  A
further 401 on the reissued `/a` is passed on unchanged, but a further 401 on
the reissued `/b` starts a second refresh exchange and `/b` is to be reissued
a second time. -/
theorem waiter_is_retried_again :
    requests sampleRefreshed.log =
      [ { url := "/a", Authorization := some "Bearer T2", _retry := true },
        { url := "/b", Authorization := some "Bearer T2", _retry := false },
        { url := "/c", Authorization := some "Bearer T2", _retry := false } ] ∧
    handle sampleRefreshed (sampleSecondError "/a" true) =
      (sampleRefreshed, Outcome.rejected (JsError.axiosError (sampleSecondError "/a" true))) ∧
    (handle sampleRefreshed (sampleSecondError "/b" false)).2 =
      Outcome.awaitingRefresh { url := "/b", Authorization := some "Bearer T2", _retry := true } ∧
    refreshCalls sampleRefreshed.log = ["R1"] ∧
    refreshCalls (handle sampleRefreshed (sampleSecondError "/b" false)).1.log = ["R1", "R1"] := by
  decide

/-- C5 as stated fails: the trigger `/a` suspends on the refresh exchange, the
exchange is rejected, and the caller of `/a` receives the error of the
exchange, which is not the 401 error of `/a`. -/
theorem trigger_gets_refresh_error :
    (handle sampleState (sampleError "/a")).2 =
      Outcome.awaitingRefresh { sampleRequest "/a" with _retry := true } ∧
    (settleRefresh (handle sampleState (sampleError "/a")).1
        { sampleRequest "/a" with _retry := true } (.error sampleRefreshError)).2 =
      Outcome.rejected sampleRefreshError ∧
    sampleRefreshError ≠ JsError.axiosError (sampleError "/a") ∧
    sampleRefreshError ≠ JsError.axiosError (markRetried (sampleError "/a")) := by
  decide

/-- C5 amended. When an eligible failure arrives with the coordinator idle and
a non-empty refresh credential stored, its handler suspends on the refresh
exchange; when that exchange fails with `refreshError`, the caller of the
triggering request receives `refreshError` itself, the error of the exchange. -/
theorem refresh_failure_propagates_refresh_error (s : State) (error : AxiosError)
    (refreshError : JsError) (c : RequestConfig)
    (hc : error.config = some c) (h401 : error.status = some 401) (hr : c._retry = false)
    (hq : s.isRefreshing = false)
    (ht : truthy (getItem s.localStorage "refresh_token") = true) :
    (handle s error).2 = Outcome.awaitingRefresh { c with _retry := true } ∧
    (settleRefresh (handle s error).1 { c with _retry := true } (.error refreshError)).2 =
      Outcome.rejected refreshError := by
  refine ⟨(handle_trigger s error c hc h401 hr hq ht).1, ?_⟩
  rw [settleRefresh_eq, afterRefresh_caught _ _ (.error refreshError) refreshError rfl]

/-- Witness of C5 amended: the trigger `/a`, refresh endpoint answering 401. -/
theorem refresh_failure_propagates_refresh_error_witness :
    (settleRefresh (handle sampleState (sampleError "/a")).1
        { sampleRequest "/a" with _retry := true } (.error sampleRefreshError)).2 =
      Outcome.rejected sampleRefreshError :=
  (refresh_failure_propagates_refresh_error sampleState (sampleError "/a") sampleRefreshError
    (sampleRequest "/a") rfl rfl rfl rfl (by decide)).2

/-- C6. When an eligible failure (a 401 on a request not yet retried) arrives
with the coordinator idle and the store holds no refresh credential, or an
empty one, then no refresh exchange call is made, the session terminator runs
(one `auth-logout` event, both credentials absent afterwards), the coordinator
is idle again when the handler returns, and the handler rejects with the
original error object, whose config line 64 has by then marked as retried. -/
theorem no_refresh_credential (s : State) (error : AxiosError)
    (he : eligible error = true) (hq : s.isRefreshing = false)
    (ht : truthy (getItem s.localStorage "refresh_token") = false) :
    refreshCalls (onRejected s error).1.log = refreshCalls s.log ∧
    events (onRejected s error).1.log = events s.log ++ ["auth-logout"] ∧
    getItem (onRejected s error).1.localStorage "access_token" = none ∧
    getItem (onRejected s error).1.localStorage "refresh_token" = none ∧
    (onRejected s error).1.isRefreshing = false ∧
    (onRejected s error).2 = Outcome.rejected (JsError.axiosError (markRetried error)) ∧
    (markRetried error).message = error.message ∧
    (markRetried error).status = error.status ∧
    (markRetried error).config = error.config.map (fun c => { c with _retry := true }) := by
  obtain ⟨c, hc, h401, hr⟩ := (eligible_iff error).mp he
  rw [onRejected_no_credential s error c hc h401 hr hq ht]
  refine ⟨?_, ?_, getItem_cleared_access _, getItem_cleared_refresh _, rfl, rfl, rfl, rfl, rfl⟩
  · dsimp only
    rw [refreshCalls_append, refreshCalls_terminatorEffects, List.append_nil]
  · dsimp only
    rw [events_append, events_terminatorEffects]

/-- Witness of C6: a 401 on `/a` with an empty store, on the login page. -/
theorem no_refresh_credential_witness :
    refreshCalls (onRejected (State.init [] "/login") (sampleError "/a")).1.log = [] ∧
    events (onRejected (State.init [] "/login") (sampleError "/a")).1.log = ["auth-logout"] :=
  ⟨(no_refresh_credential (State.init [] "/login") (sampleError "/a")
      (by decide) (by decide) (by decide)).1,
    (no_refresh_credential (State.init [] "/login") (sampleError "/a")
      (by decide) (by decide) (by decide)).2.1⟩

/-- C7 as stated fails: two requests receive 401 while the store holds no
refresh credential, and the `auth-logout` event is dispatched twice. -/
theorem two_requests_two_signals :
    events (handleAll (State.init [] "/login") [sampleError "/a", sampleError "/b"]).1.log =
      ["auth-logout", "auth-logout"] := by
  decide

/-- C7 amended. When N eligible failures reach the interceptor while the
coordinator is idle and the store holds no refresh credential, no refresh
exchange is made, the session terminator runs once for each failure and the
`auth-logout` event is dispatched N times in total, once per request. -/
theorem one_signal_per_request (errors : List AxiosError) (s : State)
    (hq : s.isRefreshing = false)
    (ht : truthy (getItem s.localStorage "refresh_token") = false)
    (hall : ∀ e ∈ errors, eligible e = true) :
    events (handleAll s errors).1.log =
      events s.log ++ List.replicate errors.length "auth-logout" ∧
    refreshCalls (handleAll s errors).1.log = refreshCalls s.log ∧
    (handleAll s errors).2 =
      errors.map (fun e => Outcome.rejected (JsError.axiosError (markRetried e))) := by
  induction errors generalizing s with
  | nil => exact ⟨by simp [handleAll], rfl, rfl⟩
  | cons e rest ih =>
    obtain ⟨ho, hq1, ht1, hr1, he1⟩ :=
      handle_no_credential s e (hall e (List.mem_cons_self _ _)) hq ht
    obtain ⟨h1, h2, h3⟩ := ih (handle s e).1 hq1 ht1
      (fun x hx => hall x (List.mem_cons_of_mem _ hx))
    rw [handleAll_cons]
    refine ⟨?_, h2.trans hr1, ?_⟩
    · rw [h1, he1]
      simp [List.replicate_succ]
    · simp [ho, h3]

/-- Witness of C7 amended: two requests, empty store, two events. -/
theorem one_signal_per_request_witness :
    events (handleAll (State.init [] "/login") [sampleError "/a", sampleError "/b"]).1.log =
      [] ++ List.replicate 2 "auth-logout" :=
  (one_signal_per_request [sampleError "/a", sampleError "/b"] (State.init [] "/login")
    (by decide) (by decide) (by decide)).1

/-! ## The dispatcher and the classifier: C11, C12, C13, C14, C15, C16 -/

/-- C11 fails on the code.  In the sample session the refresh succeeded with
`T2`, then the session terminator ran: the store holds no access credential,
yet a request whose config carries no Authorization header leaves the
dispatcher with `Authorization: Bearer T2`, taken from the client defaults
that the success path wrote and the terminator did not clear. -/
theorem stale_credential_after_termination :
    getItem sampleTerminated.localStorage "access_token" = none ∧
    sampleTerminated.defaultsAuthorization = some "Bearer T2" ∧
    requests (api sampleTerminated sampleFreshRequest).log =
      requests sampleTerminated.log ++
        [{ url := "/api/schemes/", Authorization := some "Bearer T2", _retry := false }] := by
  decide

/-- C12 as stated fails: after the sample refresh succeeded with `T2` and the
handler returned, the client defaults `api.defaults.headers.common` hold
`Bearer T2`; before the refresh they held no Authorization value. -/
theorem defaults_keep_credential :
    sampleRefreshing.defaultsAuthorization = none ∧
    sampleRefreshed.defaultsAuthorization = some "Bearer T2" := by
  decide

/-- C12 amended. On the refresh success path the new access credential `T` is
written under the store key `access_token` and no other key of the store is
changed; it is also written, as `Bearer T`, into the client defaults, which
still hold it after the handler has returned and the waiters have run; the
waiter queue and the pending reactions are then empty. -/
theorem refresh_success_copies (s : State) (originalRequest : RequestConfig) (T : String)
    (refresh : JsValue) :
    getItem (settleRefresh s originalRequest
        (.ok (RefreshData.body (JsValue.str T) refresh))).1.localStorage "access_token" =
      some T ∧
    (∀ key : String, key ≠ "access_token" →
      getItem (settleRefresh s originalRequest
          (.ok (RefreshData.body (JsValue.str T) refresh))).1.localStorage key =
        getItem s.localStorage key) ∧
    (settleRefresh s originalRequest
        (.ok (RefreshData.body (JsValue.str T) refresh))).1.defaultsAuthorization =
      some ("Bearer " ++ T) ∧
    (settleRefresh s originalRequest
        (.ok (RefreshData.body (JsValue.str T) refresh))).1.failedQueue = [] ∧
    (settleRefresh s originalRequest
        (.ok (RefreshData.body (JsValue.str T) refresh))).1.microtasks = [] := by
  rw [settleRefresh_eq, afterRefresh_body, drainMicrotasks_eq]
  refine ⟨getItem_setItem_self _ _ _, ?_, rfl, rfl, rfl⟩
  intro key hk
  exact getItem_setItem_of_ne _ _ hk

/-- C13. For every request config and every non-empty access credential `t`
held by the store, the request interceptor returns the config with
`Authorization` set to `Bearer t`, whatever Authorization value the config
carried before, and with every other field unchanged. -/
theorem interceptor_attaches_credential (ls : Storage) (config : RequestConfig) (t : String)
    (hstored : getItem ls "access_token" = some t) (hne : t ≠ "") :
    requestInterceptor ls config = { config with Authorization := some ("Bearer " ++ t) } ∧
    (requestInterceptor ls config).url = config.url ∧
    (requestInterceptor ls config)._retry = config._retry := by
  have h : requestInterceptor ls config =
      { config with Authorization := some ("Bearer " ++ t) } := by
    unfold requestInterceptor
    simp [hstored, truthy, hne]
  rw [h]
  exact ⟨rfl, rfl, rfl⟩

/-- Witness of C13: the stored credential `T1` replaces a header the config carried. -/
theorem interceptor_attaches_credential_witness :
    requestInterceptor sampleStorage
        { url := "/a", Authorization := some "Bearer old", _retry := false } =
      { url := "/a", Authorization := some "Bearer T1", _retry := false } :=
  (interceptor_attaches_credential sampleStorage
    { url := "/a", Authorization := some "Bearer old", _retry := false } "T1"
    (by decide) (by decide)).1

/-- C14. For every failure that carries a config and either is not a 401
response (any other status, or no response at all) or belongs to a request
already marked retried, the handler rejects with the identical original error
and returns the state exactly as it was: flag, queue, store, client defaults
and log are unchanged, so no refresh exchange is issued and the session
terminator does not run. -/
theorem classifier_pass_through (s : State) (error : AxiosError) (c : RequestConfig)
    (hc : error.config = some c) (h : error.status ≠ some 401 ∨ c._retry = true) :
    onRejected s error = (s, Outcome.rejected (JsError.axiosError error)) := by
  unfold onRejected
  rcases h with h | h
  · simp [hc, h]
  · simp [hc, h]

/-- Witness of C14: a transport error without response while a refresh is in flight. -/
theorem classifier_pass_through_witness :
    onRejected sampleRefreshing sampleNetworkError =
      (sampleRefreshing, Outcome.rejected (JsError.axiosError sampleNetworkError)) :=
  classifier_pass_through sampleRefreshing sampleNetworkError (sampleRequest "/a") rfl
    (Or.inl (by decide))

/-- C15. For every waiter queue, `processQueue(error, token)` settles each
waiter exactly once, in enqueue order, all with the same outcome: with an error
every waiter is rejected with that error, without one every waiter is resolved
with the value of the parameter `token` (an `undefined` argument reads as the
parameter default `null`); the queue is left empty and nothing else changes. -/
theorem processQueue_fifo (error : Option JsError) (token : JsValue) (s : State) :
    (processQueue error token s).microtasks =
      s.microtasks ++ s.failedQueue.map (fun w =>
        match error with
        | some e => Microtask.onRejected w.originalRequest e
        | none => Microtask.onFulfilled w.originalRequest
            (if token = JsValue.undefined then JsValue.null else token)) ∧
    (processQueue error token s).failedQueue = [] ∧
    processQueue error token s =
      { s with microtasks := (processQueue error token s).microtasks, failedQueue := [] } := by
  refine ⟨?_, rfl, rfl⟩
  cases error <;> rfl

/-- C16. For every prior store content, after the session terminator has run
`isAuthenticated()` returns false; and for every store it returns true exactly
when the store holds a non-empty access credential. -/
theorem terminated_not_authenticated (s : State) :
    isAuthenticated (redirectToLogin s).localStorage = false ∧
    ∀ ls : Storage, isAuthenticated ls = true ↔
      ∃ t, getItem ls "access_token" = some t ∧ t ≠ "" := by
  constructor
  · rw [redirectToLogin_eq]
    unfold isAuthenticated
    show truthy (getItem (removeItem (removeItem s.localStorage "access_token")
      "refresh_token") "access_token") = false
    rw [getItem_cleared_access]
    rfl
  · intro ls
    unfold isAuthenticated
    cases h : getItem ls "access_token" with
    | none => simp [truthy]
    | some t => simp [truthy]

/-! ## Display helpers: C17 -/

/-- C17 fails on the code.  For the object `{ name: { en: "PM Kisan" } }`, whose
`name` property is itself an object, `safeStr` returns that inner object: the
result has `typeof` equal to `object`, not `string`.  For `{ name: 5 }` it
returns the number 5, again not a string. -/
theorem safeStr_returns_object :
    safeStr (Val.objectWithName Val.objectWithoutName) = Val.objectWithoutName ∧
    (safeStr (Val.objectWithName Val.objectWithoutName)).typeof = "object" ∧
    (safeStr (Val.objectWithName (Val.number "5"))).typeof = "number" := by
  decide

/-! ## Facts about the stable sort of the counts -/

theorem head_orderedInsert (a : String × Nat) (l : List (String × Nat)) :
    (List.orderedInsert (fun a b : String × Nat => b.2 ≤ a.2) a l).head? =
      some (match l.head? with
        | none => a
        | some b => if b.2 ≤ a.2 then a else b) := by
  cases l with
  | nil => rfl
  | cons b rest =>
    by_cases h : b.2 ≤ a.2
    · simp [List.orderedInsert, h]
    · simp [List.orderedInsert, h]

theorem head_sortByCountDesc_cons (a : String × Nat) (l : List (String × Nat)) :
    (sortByCountDesc (a :: l)).head? =
      some (match (sortByCountDesc l).head? with
        | none => a
        | some b => if b.2 ≤ a.2 then a else b) := by
  unfold sortByCountDesc
  rw [List.insertionSort, head_orderedInsert]

theorem sortByCountDesc_head_none (l : List (String × Nat))
    (h : (sortByCountDesc l).head? = none) : l = [] := by
  cases l with
  | nil => rfl
  | cons a rest => rw [head_sortByCountDesc_cons] at h; cases h

/-- The first entry of the sorted counts is the first entry of greatest count:
every entry before it has a strictly smaller count, every entry after it a
count that is not greater. -/
theorem head_sortByCountDesc_spec (l : List (String × Nat)) (h : String × Nat)
    (hh : (sortByCountDesc l).head? = some h) :
    ∃ pre post, l = pre ++ h :: post ∧ (∀ b ∈ pre, b.2 < h.2) ∧ (∀ b ∈ post, b.2 ≤ h.2) := by
  induction l generalizing h with
  | nil => cases hh
  | cons a rest ih =>
    rw [head_sortByCountDesc_cons] at hh
    cases hr : (sortByCountDesc rest).head? with
    | none =>
      rw [hr] at hh
      have hnil := sortByCountDesc_head_none rest hr
      subst hnil
      refine ⟨[], [], ?_, by simp, by simp⟩
      simpa using (Option.some.inj hh)
    | some b =>
      rw [hr] at hh
      obtain ⟨pre, post, hl, hpre, hpost⟩ := ih b hr
      by_cases hba : b.2 ≤ a.2
      · have ha : a = h := by simpa [hba] using hh
        subst ha
        refine ⟨[], rest, rfl, by simp, ?_⟩
        intro x hx
        rw [hl] at hx
        rcases List.mem_append.mp hx with hx | hx
        · exact (Nat.le_of_lt (hpre x hx)).trans hba
        · rcases List.mem_cons.mp hx with hx | hx
          · rw [hx]; exact hba
          · exact (hpost x hx).trans hba
      · have hb : b = h := by simpa [hba] using hh
        subst hb
        refine ⟨a :: pre, post, by rw [hl]; rfl, ?_, hpost⟩
        intro x hx
        rcases List.mem_cons.mp hx with hx | hx
        · rw [hx]; exact Nat.lt_of_not_le hba
        · exact hpre x hx

theorem marathi_le_hindi (text : List Char) :
    text.countP isMarathiChar ≤ text.countP isHindiChar := by
  apply List.countP_mono_left
  intro c _ hc
  simp only [isMarathiChar, isHindiChar, inRange, Bool.or_eq_true, Bool.and_eq_true,
    decide_eq_true_eq] at hc ⊢
  omega

theorem mem_langCounts_mr (text : List Char) (h : String × Nat)
    (hm : h ∈ langCounts text) (hk : h.1 = "mr") : h.2 = text.countP isMarathiChar := by
  simp only [langCounts, List.mem_cons, List.mem_singleton, List.not_mem_nil, or_false] at hm
  rcases hm with hm | hm | hm | hm | hm | hm | hm | hm | hm <;>
    rw [hm] at hk ⊢ <;> first | rfl | simp at hk

/-- The code `mr` is never the first entry of the sorted counts. -/
theorem head_sorted_ne_mr (text : List Char) (h : String × Nat)
    (hh : (sortByCountDesc (langCounts text)).head? = some h) : h.1 ≠ "mr" := by
  intro hk
  obtain ⟨pre, post, hl, hpre, _⟩ := head_sortByCountDesc_spec _ h hh
  have hmem : h ∈ langCounts text := by rw [hl]; simp
  have h2 := mem_langCounts_mr text h hmem hk
  cases pre with
  | nil =>
    have : ("hi", text.countP isHindiChar) = h := by
      have := congrArg List.head? hl
      simpa [langCounts] using this
    rw [← this] at hk
    simp at hk
  | cons x pre' =>
    have hx : ("hi", text.countP isHindiChar) = x := by
      have := congrArg List.head? hl
      simpa [langCounts] using this
    have hlt := hpre x (List.mem_cons_self _ _)
    rw [← hx, h2] at hlt
    exact absurd (marathi_le_hindi text) (Nat.not_le_of_lt hlt)

/-! ## Facts about detectLanguage -/

/-- A result other than `en` is the key of the first entry of the sorted
counts, whose count is positive; this holds whatever the comparison of line 43
answers. -/
theorem detectLanguageWith_ne_en (exceeds : Nat → Nat → Bool) (text : Val) (c : String)
    (hc : detectLanguageWith exceeds text = c) (hen : c ≠ "en") :
    ∃ s h, text = Val.string s ∧ (sortByCountDesc (langCounts s.data)).head? = some h ∧
      h.1 = c ∧ 0 < h.2 := by
  unfold detectLanguageWith at hc
  cases text with
  | string s =>
    simp only at hc
    by_cases hs : s = ""
    · rw [if_pos hs] at hc; exact absurd hc.symm hen
    · rw [if_neg hs] at hc
      by_cases hx : exceeds (totalNonEnglish s.data) (keptLength s.data) = true
      · rw [if_pos hx] at hc
        cases hh : (sortByCountDesc (langCounts s.data)).head? with
        | none => rw [hh] at hc; exact absurd hc.symm hen
        | some h =>
          rw [hh] at hc
          by_cases hp : h.2 > 0
          · simp only [hp, if_true] at hc
            exact ⟨s, h, rfl, hh, hc, hp⟩
          · simp only [hp, if_false] at hc
            exact absurd hc.symm hen
      · rw [if_neg hx] at hc; exact absurd hc.symm hen
  | undefined => exact absurd hc.symm hen
  | null => exact absurd hc.symm hen
  | number _ => exact absurd hc.symm hen
  | boolean _ => exact absurd hc.symm hen
  | objectWithName _ => exact absurd hc.symm hen
  | objectWithoutName => exact absurd hc.symm hen
  | other => exact absurd hc.symm hen

theorem detectLanguageWith_ne_mr (exceeds : Nat → Nat → Bool) (text : Val) :
    detectLanguageWith exceeds text ≠ "mr" := by
  intro hc
  obtain ⟨s, h, _, hh, hk, _⟩ := detectLanguageWith_ne_en exceeds text "mr" hc (by decide)
  exact head_sorted_ne_mr s.data h hh hk

/-! ## detectLanguage: C19, C20 -/

/-- C19 fails on the code for the documented code `mr`.  No input makes
`detectLanguage` return `mr`: every character counted for Marathi is also
counted for Hindi, and `hi` precedes `mr` among entries of equal count.  The
Marathi word of the sample, written in Devanagari, is reported as `hi`. -/
theorem detectLanguage_never_marathi :
    (∀ text : Val, detectLanguage text ≠ "mr") ∧
    detectLanguage sampleMarathi = "hi" :=
  ⟨fun text => detectLanguageWith_ne_mr exceedsThreshold text, by decide⟩

/-- C20. Whenever `detectLanguage` returns a code `c` other than `en`, the input
is a string, the number `n` of characters counted for `c` is positive, and no
one of the nine scripts has a count greater than `n`. -/
theorem detectLanguage_dominant (text : Val) (c : String)
    (hc : detectLanguage text = c) (hen : c ≠ "en") :
    ∃ s n, text = Val.string s ∧ (c, n) ∈ langCounts s.data ∧ 0 < n ∧
      ∀ e ∈ langCounts s.data, e.2 ≤ n := by
  obtain ⟨s, h, hs, hh, hk, hp⟩ := detectLanguageWith_ne_en exceedsThreshold text c hc hen
  obtain ⟨pre, post, hl, hpre, hpost⟩ := head_sortByCountDesc_spec _ h hh
  refine ⟨s, h.2, hs, ?_, hp, ?_⟩
  · rw [← hk, hl]
    simp
  · intro e he
    rw [hl] at he
    rcases List.mem_append.mp he with he | he
    · exact Nat.le_of_lt (hpre e he)
    · rcases List.mem_cons.mp he with he | he
      · rw [he]
      · exact hpost e he

/-- Witness of C20: the Tamil sample is reported as `ta`, with five Tamil characters. -/
theorem detectLanguage_dominant_witness :
    ∃ s n, sampleTamil = Val.string s ∧ ("ta", n) ∈ langCounts s.data ∧ 0 < n ∧
      ∀ e ∈ langCounts s.data, e.2 ≤ n :=
  detectLanguage_dominant sampleTamil "ta" (by decide) (by decide)

/-! ## Facts about the replacements of cleanTextForSpeech -/

/-- A word none of whose characters occurs in `rep` and that is an infix of
`rep ++ l` is an infix of `l`. -/
theorem infix_of_infix_append_avoid (p rep l : List Char) (hp : ∀ c ∈ p, c ∉ rep)
    (h : p <:+: rep ++ l) : p <:+: l := by
  induction rep with
  | nil => simpa using h
  | cons r rep ih =>
    have hp' : ∀ c ∈ p, c ∉ rep := fun c hc hr => hp c hc (List.mem_cons_of_mem _ hr)
    rw [List.cons_append, List.infix_cons_iff] at h
    rcases h with h | h
    · cases p with
      | nil => exact List.nil_infix
      | cons a t =>
        rw [List.cons_prefix_cons] at h
        exact absurd (List.mem_cons_self r rep) (h.1 ▸ hp a (List.mem_cons_self _ _))
    · exact ih hp' h

theorem collapseRuns_cons_inside (q : Char → Bool) (rep : List Char) (c : Char)
    (rest : List Char) (hq : q c = true) :
    collapseRuns q rep true (c :: rest) = collapseRuns q rep true rest := by
  simp [collapseRuns, hq]

theorem collapseRuns_cons_enter (q : Char → Bool) (rep : List Char) (c : Char)
    (rest : List Char) (hq : q c = true) :
    collapseRuns q rep false (c :: rest) = rep ++ collapseRuns q rep true rest := by
  simp [collapseRuns, hq]

theorem collapseRuns_cons_copy (q : Char → Bool) (rep : List Char) (inRun : Bool) (c : Char)
    (rest : List Char) (hq : q c = false) :
    collapseRuns q rep inRun (c :: rest) = c :: collapseRuns q rep false rest := by
  simp [collapseRuns, hq]

/-- A word that avoids the class `q` and the replacement `rep`, and is a prefix
of the collapsed text, is a prefix of the text. -/
theorem prefix_of_prefix_collapseRuns (q : Char → Bool) (rep : List Char) (hrep : rep ≠ [])
    (l p : List Char) (hp : ∀ c ∈ p, q c = false ∧ c ∉ rep)
    (h : p <+: collapseRuns q rep false l) : p <+: l := by
  induction l generalizing p with
  | nil => simpa [collapseRuns] using h
  | cons c rest ih =>
    cases p with
    | nil => exact List.nil_prefix
    | cons a t =>
      have ha := hp a (List.mem_cons_self _ _)
      have ht : ∀ c ∈ t, q c = false ∧ c ∉ rep := fun c hc => hp c (List.mem_cons_of_mem _ hc)
      cases hq : q c with
      | true =>
        exfalso
        rw [collapseRuns_cons_enter q rep c rest hq] at h
        cases rep with
        | nil => exact hrep rfl
        | cons r rep' =>
          rw [List.cons_append, List.cons_prefix_cons] at h
          exact ha.2 (h.1 ▸ List.mem_cons_self _ _)
      | false =>
        rw [collapseRuns_cons_copy q rep false c rest hq, List.cons_prefix_cons] at h
        rw [List.cons_prefix_cons]
        exact ⟨h.1, ih t ht h.2⟩

/-- A word that avoids the class `q` and the replacement `rep`, and occurs in
the collapsed text, occurs in the text. -/
theorem infix_of_infix_collapseRuns (q : Char → Bool) (rep : List Char) (hrep : rep ≠ [])
    (l p : List Char) (hp : ∀ c ∈ p, q c = false ∧ c ∉ rep) (inRun : Bool)
    (h : p <:+: collapseRuns q rep inRun l) : p <:+: l := by
  induction l generalizing inRun with
  | nil => simpa [collapseRuns] using h
  | cons c rest ih =>
    cases hq : q c with
    | true =>
      cases inRun with
      | true =>
        rw [collapseRuns_cons_inside q rep c rest hq] at h
        exact List.infix_cons (ih true h)
      | false =>
        rw [collapseRuns_cons_enter q rep c rest hq] at h
        exact List.infix_cons (ih true
          (infix_of_infix_append_avoid p rep _ (fun c hc => (hp c hc).2) h))
    | false =>
      rw [collapseRuns_cons_copy q rep inRun c rest hq, List.infix_cons_iff] at h
      rcases h with h | h
      · rw [← collapseRuns_cons_copy q rep false c rest hq] at h
        exact (prefix_of_prefix_collapseRuns q rep hrep _ p hp h).isInfix
      · exact List.infix_cons (ih false h)

theorem trim_within (l : List Char) : trim l <:+: l :=
  (List.rdropWhile_prefix isSpace _).isInfix.trans (List.dropWhile_suffix isSpace).isInfix

/-! ## Facts about the removal of URLs -/

theorem startsUrl_of_http (x : Char) (l : List Char) (hx : isSpace x = false)
    (h : httpScheme ++ [x] <+: l) : startsUrl l = true := by
  obtain ⟨t, rfl⟩ := h
  simp [httpScheme, startsUrl, hx]

theorem startsUrl_of_https (x : Char) (l : List Char) (hx : isSpace x = false)
    (h : httpsScheme ++ [x] <+: l) : startsUrl l = true := by
  obtain ⟨t, rfl⟩ := h
  simp [httpsScheme, startsUrl, hx]

/-- Inside a match the scan emits nothing before the next character of `\s`. -/
theorem stripUrls_inside_head (l : List Char) (a : Char) (t : List Char)
    (h : stripUrls true l = a :: t) : isSpace a = true := by
  induction l with
  | nil => simp [stripUrls] at h
  | cons c rest ih =>
    cases hc : isSpace c with
    | true =>
      simp only [stripUrls, hc, if_true] at h
      rw [← (List.cons.inj h).1]
      exact hc
    | false =>
      simp only [stripUrls, hc, Bool.false_eq_true, if_false] at h
      exact ih h

/-- A non-empty word without characters of `\s` that is a prefix of the text
after the removal is a prefix of the text before it, where no match starts. -/
theorem prefix_of_prefix_stripUrls (l w : List Char) (hw : ∀ c ∈ w, isSpace c = false)
    (hne : w ≠ []) (h : w <+: stripUrls false l) : w <+: l ∧ startsUrl l = false := by
  induction l generalizing w with
  | nil =>
    simp only [stripUrls, List.prefix_nil] at h
    exact absurd h hne
  | cons c rest ih =>
    cases w with
    | nil => exact absurd rfl hne
    | cons a t =>
      cases hs : startsUrl (c :: rest) with
      | true =>
        exfalso
        simp only [stripUrls, hs, if_true] at h
        obtain ⟨u, hu⟩ := h
        have := stripUrls_inside_head rest a (t ++ u) (by rw [← hu]; rfl)
        rw [hw a (List.mem_cons_self _ _)] at this
        cases this
      | false =>
        simp only [stripUrls, hs, Bool.false_eq_true, if_false] at h
        rw [List.cons_prefix_cons] at h
        refine ⟨?_, rfl⟩
        rw [List.cons_prefix_cons]
        refine ⟨h.1, ?_⟩
        cases t with
        | nil => exact List.nil_prefix
        | cons b t' =>
          exact (ih (b :: t') (fun c hc => hw c (List.mem_cons_of_mem _ hc))
            (by simp) h.2).1

/-- After the removal no word that starts a match occurs in the text. -/
theorem not_infix_stripUrls (w : List Char) (hw : ∀ c ∈ w, isSpace c = false) (hne : w ≠ [])
    (hstart : ∀ l, w <+: l → startsUrl l = true) (inside : Bool) (l : List Char) :
    ¬ w <:+: stripUrls inside l := by
  induction l generalizing inside with
  | nil =>
    simp only [stripUrls, List.infix_nil]
    exact hne
  | cons c rest ih =>
    intro h
    have hcopy : w <:+: c :: stripUrls false rest →
        stripUrls false (c :: rest) = c :: stripUrls false rest → False := by
      intro h' heq
      rw [List.infix_cons_iff] at h'
      rcases h' with h' | h'
      · rw [← heq] at h'
        have := prefix_of_prefix_stripUrls (c :: rest) w hw hne h'
        rw [hstart _ this.1] at this
        cases this.2
      · exact ih false h'
    cases inside with
    | true =>
      cases hc : isSpace c with
      | true =>
        simp only [stripUrls, hc, if_true] at h
        rw [List.infix_cons_iff] at h
        rcases h with h | h
        · cases w with
          | nil => exact hne rfl
          | cons a t =>
            rw [List.cons_prefix_cons] at h
            have := hw a (List.mem_cons_self _ _)
            rw [h.1, hc] at this
            cases this
        · exact ih false h
      | false =>
        simp only [stripUrls, hc, Bool.false_eq_true, if_false] at h
        exact ih true h
    | false =>
      cases hs : startsUrl (c :: rest) with
      | true =>
        simp only [stripUrls, hs, if_true] at h
        exact ih true h
      | false =>
        have heq : stripUrls false (c :: rest) = c :: stripUrls false rest := by
          simp [stripUrls, hs]
        rw [heq] at h
        exact hcopy h heq

/-- A word without characters of `\s` and without a full stop that starts a
match of the URL pattern does not occur in the cleaned text. -/
theorem not_infix_cleanChars (w : List Char) (hw : ∀ c ∈ w, isSpace c = false ∧ c ≠ '.')
    (hne : w ≠ []) (hstart : ∀ l, w <+: l → startsUrl l = true) (text : List Char) :
    ¬ w <:+: cleanChars text := by
  intro h
  unfold cleanChars at h
  have h9 := h.trans (trim_within _)
  have hsp : ∀ c ∈ w, isSpace c = false ∧ c ∉ [' '] := by
    intro c hc
    refine ⟨(hw c hc).1, ?_⟩
    intro hm
    rw [List.mem_singleton] at hm
    have := (hw c hc).1
    rw [hm] at this
    exact absurd this (by decide)
  have h8 := infix_of_infix_collapseRuns isSpace [' '] (by simp) _ w hsp false h9
  have hnl : ∀ c ∈ w, (c == '\n') = false ∧ c ∉ ['.', ' '] := by
    intro c hc
    refine ⟨?_, ?_⟩
    · rw [beq_eq_false_iff_ne]
      intro hm
      have := (hw c hc).1
      rw [hm] at this
      exact absurd this (by decide)
    · intro hm
      rcases List.mem_cons.mp hm with hm | hm
      · exact (hw c hc).2 hm
      · exact (hsp c hc).2 hm
  have h7 := infix_of_infix_collapseRuns (fun c => c == '\n') ['.', ' '] (by simp) _ w hnl
    false h8
  exact not_infix_stripUrls w (fun c hc => (hw c hc).1) hne hstart false _ h7

theorem scheme_chars_avoid (x : Char) (hx : isSpace x = false) (hdot : x ≠ '.')
    (scheme : List Char) (hs : ∀ c ∈ scheme, isSpace c = false ∧ c ≠ '.') :
    ∀ c ∈ scheme ++ [x], isSpace c = false ∧ c ≠ '.' := by
  intro c hc
  rcases List.mem_append.mp hc with hc | hc
  · exact hs c hc
  · rw [List.mem_singleton] at hc
    rw [hc]
    exact ⟨hx, hdot⟩

/-! ## Facts about a full stop put in for a line break -/

theorem cleanChars_eq (text : List Char) :
    cleanChars text =
      trim (collapseRuns isSpace [' '] false
        (collapseRuns (fun c => c == '\n') ['.', ' '] false (beforeLineBreaks text))) := rfl

/-- A word whose first character does not occur in `rep` and that is an infix
of `rep ++ l` is an infix of `l`. -/
theorem infix_of_infix_append_head (a : Char) (t rep l : List Char) (ha : a ∉ rep)
    (h : a :: t <:+: rep ++ l) : a :: t <:+: l := by
  induction rep with
  | nil => simpa using h
  | cons r rep ih =>
    rw [List.cons_append, List.infix_cons_iff] at h
    rcases h with h | h
    · rw [List.cons_prefix_cons] at h
      exact absurd (h.1 ▸ List.mem_cons_self r rep) ha
    · exact ih (fun hm => ha (List.mem_cons_of_mem _ hm)) h

/-- Where a word that avoids the class `q` and the replacement is followed, at
the start of the collapsed text, by the first character of the replacement,
the word is followed in the text either by that same character or by a
character of the class. -/
theorem prefix_collapseRuns_then_rep (q : Char → Bool) (r0 : Char) (rep : List Char)
    (l w : List Char) (hw : ∀ c ∈ w, q c = false ∧ c ∉ r0 :: rep)
    (h : w ++ [r0] <+: collapseRuns q (r0 :: rep) false l) :
    w ++ [r0] <+: l ∨ ∃ c, q c = true ∧ w ++ [c] <+: l := by
  induction l generalizing w with
  | nil =>
    exfalso
    simp only [collapseRuns, List.prefix_nil] at h
    cases w <;> cases h
  | cons c rest ih =>
    cases hq : q c with
    | true =>
      rw [collapseRuns_cons_enter q _ c rest hq] at h
      cases w with
      | nil =>
        exact Or.inr ⟨c, hq, by simp⟩
      | cons a t =>
        exfalso
        rw [List.cons_append, List.cons_append, List.cons_prefix_cons] at h
        exact (hw a (List.mem_cons_self _ _)).2 (h.1 ▸ List.mem_cons_self _ _)
    | false =>
      rw [collapseRuns_cons_copy q _ false c rest hq] at h
      cases w with
      | nil =>
        rw [List.nil_append, List.cons_prefix_cons] at h
        exact Or.inl (by rw [List.nil_append, List.cons_prefix_cons]; exact ⟨h.1, List.nil_prefix⟩)
      | cons a t =>
        rw [List.cons_append, List.cons_prefix_cons] at h
        rcases ih t (fun x hx => hw x (List.mem_cons_of_mem _ hx)) h.2 with h' | ⟨c', hc', h'⟩
        · exact Or.inl (by rw [List.cons_append, List.cons_prefix_cons]; exact ⟨h.1, h'⟩)
        · exact Or.inr ⟨c', hc', by rw [List.cons_append, List.cons_prefix_cons]; exact ⟨h.1, h'⟩⟩

/-- The same for an occurrence anywhere in the collapsed text. -/
theorem infix_collapseRuns_then_rep (q : Char → Bool) (r0 : Char) (rep : List Char)
    (l : List Char) (a : Char) (t : List Char)
    (hw : ∀ c ∈ a :: t, q c = false ∧ c ∉ r0 :: rep) (inRun : Bool)
    (h : (a :: t) ++ [r0] <:+: collapseRuns q (r0 :: rep) inRun l) :
    (a :: t) ++ [r0] <:+: l ∨ ∃ c, q c = true ∧ (a :: t) ++ [c] <:+: l := by
  induction l generalizing inRun with
  | nil =>
    exfalso
    simp only [collapseRuns, List.infix_nil] at h
    cases h
  | cons c rest ih =>
    have lift : ((a :: t) ++ [r0] <:+: rest ∨ ∃ c', q c' = true ∧ (a :: t) ++ [c'] <:+: rest) →
        ((a :: t) ++ [r0] <:+: c :: rest ∨
          ∃ c', q c' = true ∧ (a :: t) ++ [c'] <:+: c :: rest) := by
      rintro (h' | ⟨c', hc', h'⟩)
      · exact Or.inl (List.infix_cons h')
      · exact Or.inr ⟨c', hc', List.infix_cons h'⟩
    cases hq : q c with
    | true =>
      cases inRun with
      | true =>
        rw [collapseRuns_cons_inside q _ c rest hq] at h
        exact lift (ih true h)
      | false =>
        rw [collapseRuns_cons_enter q _ c rest hq] at h
        exact lift (ih true (infix_of_infix_append_head a (t ++ [r0]) _ _
          (hw a (List.mem_cons_self _ _)).2 h))
    | false =>
      rw [collapseRuns_cons_copy q _ inRun c rest hq, List.infix_cons_iff] at h
      rcases h with h | h
      · rw [← collapseRuns_cons_copy q _ false c rest hq] at h
        rcases prefix_collapseRuns_then_rep q r0 rep _ (a :: t) hw h with h' | ⟨c', hc', h'⟩
        · exact Or.inl h'.isInfix
        · exact Or.inr ⟨c', hc', h'.isInfix⟩
      · exact lift (ih false h)

/-- Where a word that avoids the class and the replacement is followed, at the
start of the collapsed text, by the first character of the replacement and
then by `y`, either the word is followed by that first character in the text
itself, or `y` is the second character of the replacement. -/
theorem prefix_collapseRuns_then_rep_next (q : Char → Bool) (r0 r1 : Char) (rep : List Char)
    (l w : List Char) (y : Char) (hw : ∀ c ∈ w, q c = false ∧ c ∉ r0 :: r1 :: rep)
    (h : w ++ [r0, y] <+: collapseRuns q (r0 :: r1 :: rep) false l) :
    w ++ [r0] <+: l ∨ y = r1 := by
  induction l generalizing w with
  | nil =>
    exfalso
    simp only [collapseRuns, List.prefix_nil] at h
    cases w <;> cases h
  | cons c rest ih =>
    cases hq : q c with
    | true =>
      rw [collapseRuns_cons_enter q _ c rest hq] at h
      cases w with
      | nil =>
        rw [List.nil_append, List.cons_append, List.cons_append, List.cons_prefix_cons,
          List.cons_prefix_cons] at h
        exact Or.inr h.2.1
      | cons a t =>
        exfalso
        rw [List.cons_append, List.cons_append, List.cons_prefix_cons] at h
        exact (hw a (List.mem_cons_self _ _)).2 (h.1 ▸ List.mem_cons_self _ _)
    | false =>
      rw [collapseRuns_cons_copy q _ false c rest hq] at h
      cases w with
      | nil =>
        rw [List.nil_append, List.cons_prefix_cons] at h
        exact Or.inl (by rw [List.nil_append, List.cons_prefix_cons]; exact ⟨h.1, List.nil_prefix⟩)
      | cons a t =>
        rw [List.cons_append, List.cons_prefix_cons] at h
        rcases ih t (fun x hx => hw x (List.mem_cons_of_mem _ hx)) h.2 with h' | h'
        · exact Or.inl (by rw [List.cons_append, List.cons_prefix_cons]; exact ⟨h.1, h'⟩)
        · exact Or.inr h'

/-- The same for an occurrence anywhere in the collapsed text. -/
theorem infix_collapseRuns_then_rep_next (q : Char → Bool) (r0 r1 : Char) (rep : List Char)
    (l : List Char) (a : Char) (t : List Char) (y : Char)
    (hw : ∀ c ∈ a :: t, q c = false ∧ c ∉ r0 :: r1 :: rep) (inRun : Bool)
    (h : (a :: t) ++ [r0, y] <:+: collapseRuns q (r0 :: r1 :: rep) inRun l) :
    (a :: t) ++ [r0] <:+: l ∨ y = r1 := by
  induction l generalizing inRun with
  | nil =>
    exfalso
    simp only [collapseRuns, List.infix_nil] at h
    cases h
  | cons c rest ih =>
    have lift : ((a :: t) ++ [r0] <:+: rest ∨ y = r1) →
        ((a :: t) ++ [r0] <:+: c :: rest ∨ y = r1) := by
      rintro (h' | h')
      · exact Or.inl (List.infix_cons h')
      · exact Or.inr h'
    cases hq : q c with
    | true =>
      cases inRun with
      | true =>
        rw [collapseRuns_cons_inside q _ c rest hq] at h
        exact lift (ih true h)
      | false =>
        rw [collapseRuns_cons_enter q _ c rest hq] at h
        exact lift (ih true (infix_of_infix_append_head a (t ++ [r0, y]) _ _
          (hw a (List.mem_cons_self _ _)).2 h))
    | false =>
      rw [collapseRuns_cons_copy q _ inRun c rest hq, List.infix_cons_iff] at h
      rcases h with h | h
      · rw [← collapseRuns_cons_copy q _ false c rest hq] at h
        rcases prefix_collapseRuns_then_rep_next q r0 r1 rep _ (a :: t) y hw h with h' | h'
        · exact Or.inl h'.isInfix
        · exact Or.inr h'
      · exact lift (ih false h)

theorem not_space_avoid (c : Char) (hc : isSpace c = false) :
    c ≠ ' ' ∧ (c == '\n') = false := by
  constructor
  · intro h
    rw [h] at hc
    exact absurd hc (by decide)
  · rw [beq_eq_false_iff_ne]
    intro h
    rw [h] at hc
    exact absurd hc (by decide)

/-- What the cleaned text can hold after a scheme: the facts of C18 for a word
`a :: t` that is free of whitespace and full stops and starts a match of the
URL pattern whenever a character outside `\s` follows it. -/
theorem scheme_in_cleanChars (a : Char) (t : List Char)
    (hs : ∀ c ∈ a :: t, isSpace c = false ∧ c ≠ '.')
    (hstart : ∀ (x : Char) (l : List Char), isSpace x = false →
      (a :: t) ++ [x] <+: l → startsUrl l = true)
    (text : List Char) :
    (∀ x : Char, isSpace x = false → ¬ (a :: t) ++ [x] <:+: beforeLineBreaks text) ∧
    (∀ x : Char, isSpace x = false → x ≠ '.' → ¬ (a :: t) ++ [x] <:+: cleanChars text) ∧
    (∀ y : Char, isSpace y = false → ¬ (a :: t) ++ ['.', y] <:+: cleanChars text) ∧
    ((a :: t) ++ ['.'] <:+: cleanChars text → (a :: t) ++ ['\n'] <:+: beforeLineBreaks text) := by
  have h4 : ∀ x : Char, isSpace x = false → ¬ (a :: t) ++ [x] <:+: beforeLineBreaks text := by
    intro x hx
    have hw : ∀ c ∈ (a :: t) ++ [x], isSpace c = false := by
      intro c hc
      rcases List.mem_append.mp hc with hc | hc
      · exact (hs c hc).1
      · rw [List.mem_singleton] at hc
        rw [hc]; exact hx
    exact not_infix_stripUrls _ hw (by simp) (fun l h => hstart x l hx h) false _
  have hnl : ∀ c ∈ a :: t, (c == '\n') = false ∧ c ∉ ['.', ' '] := by
    intro c hc
    refine ⟨(not_space_avoid c (hs c hc).1).2, ?_⟩
    intro hm
    rcases List.mem_cons.mp hm with hm | hm
    · exact (hs c hc).2 hm
    · rw [List.mem_singleton] at hm
      exact (not_space_avoid c (hs c hc).1).1 hm
  have hdotsp : isSpace '.' = false := by decide
  have back : ∀ w : List Char, (∀ c ∈ w, isSpace c = false) → w <:+: cleanChars text →
      w <:+: collapseRuns (fun c => c == '\n') ['.', ' '] false (beforeLineBreaks text) := by
    intro w hw h
    rw [cleanChars_eq] at h
    have hsp : ∀ c ∈ w, isSpace c = false ∧ c ∉ [' '] := by
      intro c hc
      refine ⟨hw c hc, ?_⟩
      intro hm
      rw [List.mem_singleton] at hm
      exact (not_space_avoid c (hw c hc)).1 hm
    exact infix_of_infix_collapseRuns isSpace [' '] (by simp) _ w hsp false
      (h.trans (trim_within _))
  refine ⟨h4, ?_, ?_, ?_⟩
  · intro x hx hdot
    exact not_infix_cleanChars _ (scheme_chars_avoid x hx hdot (a :: t) hs) (by simp)
      (fun l h => hstart x l hx h) text
  · intro y hy h
    have hw : ∀ c ∈ (a :: t) ++ ['.', y], isSpace c = false := by
      intro c hc
      rcases List.mem_append.mp hc with hc | hc
      · exact (hs c hc).1
      · rcases List.mem_cons.mp hc with hc | hc
        · rw [hc]; exact hdotsp
        · rw [List.mem_singleton] at hc
          rw [hc]; exact hy
    rcases infix_collapseRuns_then_rep_next (fun c => c == '\n') '.' ' ' [] _ a t y hnl false
      (back _ hw h) with h' | h'
    · exact h4 '.' hdotsp h'
    · exact (not_space_avoid y hy).1 h'
  · intro h
    have hw : ∀ c ∈ (a :: t) ++ ['.'], isSpace c = false := by
      intro c hc
      rcases List.mem_append.mp hc with hc | hc
      · exact (hs c hc).1
      · rw [List.mem_singleton] at hc
        rw [hc]; exact hdotsp
    rcases infix_collapseRuns_then_rep (fun c => c == '\n') '.' [' '] _ a t hnl false
      (back _ hw h) with h' | ⟨c, hc, h'⟩
    · exact absurd h' (h4 '.' hdotsp)
    · have hcn : c = '\n' := by simpa using hc
      rw [hcn] at h'
      exact h'

/-! ## cleanTextForSpeech: C18 -/

/-- C18 as stated fails: for the text `http://`, line break, `foo`, in which
nothing follows `http://` on its line, the URL pattern matches nowhere and the
replacement of the line break puts a full stop right after `http://`: the
result is `http://. foo`, where `http://` is followed by a character that is
not whitespace. -/
theorem cleanTextForSpeech_leaves_scheme :
    cleanTextForSpeech (Val.string "http://\nfoo") = "http://. foo" ∧
    httpScheme ++ ['.'] <+: (cleanTextForSpeech (Val.string "http://\nfoo")).data ∧
    isSpace '.' = false := by
  refine ⟨by decide, ⟨[' ', 'f', 'o', 'o'], by decide⟩, by decide⟩

/-- C18 amended. For every input and for each of the schemes `http://` and
`https://`: the result of `cleanTextForSpeech` contains no occurrence of the
scheme immediately followed by a character that is neither whitespace nor a
full stop; a full stop that follows the scheme in the result is never followed
by a character outside whitespace, and it stands for a line break: in the text
as it is after the URL replacement of line 14 the scheme is directly followed
by a line break.  In that text no scheme is followed by any character outside
whitespace, a full stop included, and the result is that text after the
replacements of lines 15 and 16 and `trim`. -/
theorem cleanTextForSpeech_removes_urls (text : Val) (scheme : List Char)
    (hscheme : scheme = httpScheme ∨ scheme = httpsScheme) :
    (∀ x : Char, isSpace x = false → x ≠ '.' →
      ¬ scheme ++ [x] <:+: (cleanTextForSpeech text).data) ∧
    (∀ y : Char, isSpace y = false →
      ¬ scheme ++ ['.', y] <:+: (cleanTextForSpeech text).data) ∧
    (scheme ++ ['.'] <:+: (cleanTextForSpeech text).data →
      ∃ s, text = Val.string s ∧ scheme ++ ['\n'] <:+: beforeLineBreaks s.data) ∧
    (∀ s, text = Val.string s →
      (∀ x : Char, isSpace x = false → ¬ scheme ++ [x] <:+: beforeLineBreaks s.data) ∧
      (cleanTextForSpeech text).data =
        trim (collapseRuns isSpace [' '] false
          (collapseRuns (fun c => c == '\n') ['.', ' '] false (beforeLineBreaks s.data)))) := by
  have key : ∀ l : List Char,
      (∀ x : Char, isSpace x = false → ¬ scheme ++ [x] <:+: beforeLineBreaks l) ∧
      (∀ x : Char, isSpace x = false → x ≠ '.' → ¬ scheme ++ [x] <:+: cleanChars l) ∧
      (∀ y : Char, isSpace y = false → ¬ scheme ++ ['.', y] <:+: cleanChars l) ∧
      (scheme ++ ['.'] <:+: cleanChars l → scheme ++ ['\n'] <:+: beforeLineBreaks l) := by
    intro l
    rcases hscheme with h | h
    · rw [h]
      exact scheme_in_cleanChars 'h' ['t', 't', 'p', ':', '/', '/'] (by decide)
        (fun x l hx hp => startsUrl_of_http x l hx hp) l
    · rw [h]
      exact scheme_in_cleanChars 'h' ['t', 't', 'p', 's', ':', '/', '/'] (by decide)
        (fun x l hx hp => startsUrl_of_https x l hx hp) l
  have hempty : ∀ w : List Char, ¬ scheme ++ w <:+: ([] : List Char) := by
    intro w h
    rw [List.infix_nil, List.append_eq_nil] at h
    rcases hscheme with h' | h' <;> rw [h'] at h <;> exact absurd h.1 (by decide)
  cases text with
  | string s =>
    obtain ⟨k4, k1, k2, k3⟩ := key s.data
    exact ⟨k1, k2, fun h => ⟨s, rfl, k3 h⟩,
      fun s' hs' => by
        cases hs'
        exact ⟨k4, cleanChars_eq s.data⟩⟩
  | undefined =>
    exact ⟨fun _ _ _ => hempty _, fun _ _ => hempty _, fun h => absurd h (hempty _),
      fun _ hs => by cases hs⟩
  | null =>
    exact ⟨fun _ _ _ => hempty _, fun _ _ => hempty _, fun h => absurd h (hempty _),
      fun _ hs => by cases hs⟩
  | number _ =>
    exact ⟨fun _ _ _ => hempty _, fun _ _ => hempty _, fun h => absurd h (hempty _),
      fun _ hs => by cases hs⟩
  | boolean _ =>
    exact ⟨fun _ _ _ => hempty _, fun _ _ => hempty _, fun h => absurd h (hempty _),
      fun _ hs => by cases hs⟩
  | objectWithName _ =>
    exact ⟨fun _ _ _ => hempty _, fun _ _ => hempty _, fun h => absurd h (hempty _),
      fun _ hs => by cases hs⟩
  | objectWithoutName =>
    exact ⟨fun _ _ _ => hempty _, fun _ _ => hempty _, fun h => absurd h (hempty _),
      fun _ hs => by cases hs⟩
  | other =>
    exact ⟨fun _ _ _ => hempty _, fun _ _ => hempty _, fun h => absurd h (hempty _),
      fun _ hs => by cases hs⟩

/-- Witness of C18 amended: a text with a link, in whose result no `https://v`
occurs; and the text of the counterexample, where the full stop after
`http://` stands for the line break that followed it. -/
theorem cleanTextForSpeech_removes_urls_witness :
    cleanTextForSpeech (Val.string "see https://vaani.in/x now") = "see now" ∧
    ¬ (httpsScheme ++ ['v']) <:+:
      (cleanTextForSpeech (Val.string "see https://vaani.in/x now")).data ∧
    ∃ s, Val.string "http://\nfoo" = Val.string s ∧
      httpScheme ++ ['\n'] <:+: beforeLineBreaks s.data :=
  ⟨by decide,
    (cleanTextForSpeech_removes_urls (Val.string "see https://vaani.in/x now") httpsScheme
      (Or.inr rfl)).1 'v' (by decide) (by decide),
    (cleanTextForSpeech_removes_urls (Val.string "http://\nfoo") httpScheme
      (Or.inl rfl)).2.2.1 ⟨[], [' ', 'f', 'o', 'o'], by decide⟩⟩

/-! ## detectLanguage: C21, C22 -/

theorem countP_eq_zero_of_not_indic (p : Char → Bool) (text : List Char)
    (hp : ∀ c, p c = true → isIndicChar c = true)
    (h : ∀ c ∈ text, isIndicChar c = false) : text.countP p = 0 := by
  rw [List.countP_eq_zero]
  intro c hc hpc
  have := h c hc
  rw [hp c hpc] at this
  cases this

theorem langCounts_zero_of_not_indic (text : List Char)
    (h : ∀ c ∈ text, isIndicChar c = false) : ∀ e ∈ langCounts text, e.2 = 0 := by
  intro e he
  simp only [langCounts, List.mem_cons, List.mem_singleton, List.not_mem_nil, or_false] at he
  rcases he with he | he | he | he | he | he | he | he | he <;> rw [he] <;>
    apply countP_eq_zero_of_not_indic _ _ _ h <;> intro c hc <;>
    simp [isIndicChar, hc]

theorem mem_langCounts_key (text : List Char) (e : String × Nat) (he : e ∈ langCounts text) :
    e.1 ∈ ["hi", "ta", "te", "mr", "bn", "gu", "pa", "ml", "kn"] := by
  simp only [langCounts, List.mem_cons, List.mem_singleton, List.not_mem_nil, or_false] at he
  rcases he with he | he | he | he | he | he | he | he | he <;> rw [he] <;> simp

theorem head_mem_of_sorted (l : List (String × Nat)) (h : String × Nat)
    (hh : (sortByCountDesc l).head? = some h) : h ∈ l := by
  obtain ⟨pre, post, hl, _, _⟩ := head_sortByCountDesc_spec l h hh
  rw [hl]
  simp

/-- C21 fails on the code.  The sample text has four characters, one of them
Indic (a Tamil letter), so the Indic share is 25 percent, not more than 30;
yet `detectLanguage` returns `ta`.  The length the count is compared with is
that of the text stripped of everything outside `\w` and `\s`, which strips the
Indic letters themselves: here 3, and 1 exceeds 30 percent of 3. -/
theorem detectLanguage_threshold_ignores_indic :
    detectLanguage sampleMostlyLatin = "ta" ∧
    (∃ s, sampleMostlyLatin = Val.string s ∧ s.data.length = 4 ∧
      s.data.countP isIndicChar = 1 ∧ totalNonEnglish s.data = 1 ∧ keptLength s.data = 3) ∧
    10 * 1 ≤ 3 * 4 := by
  refine ⟨by decide, ⟨_, rfl, by decide, by decide, by decide, by decide⟩, by decide⟩

/-- C22. For every input that is not a string, for the empty string, and for
every string none of whose characters belongs to one of the nine script
classes, `detectLanguage` returns `en`; and for every input the result is one
of the ten codes en, hi, ta, te, mr, bn, gu, pa, ml, kn. -/
theorem detectLanguage_defaults_to_english (text : Val) :
    ((∀ s, text ≠ Val.string s) → detectLanguage text = "en") ∧
    (text = Val.string "" → detectLanguage text = "en") ∧
    (∀ s, text = Val.string s → (∀ c ∈ s.data, isIndicChar c = false) →
      detectLanguage text = "en") ∧
    detectLanguage text ∈ ["en", "hi", "ta", "te", "mr", "bn", "gu", "pa", "ml", "kn"] := by
  refine ⟨?_, ?_, ?_, ?_⟩
  · intro hns
    by_contra hen
    obtain ⟨s, _, hs, _⟩ := detectLanguageWith_ne_en exceedsThreshold text _ rfl hen
    exact hns s hs
  · intro hs
    rw [hs]
    rfl
  · intro s hs hno
    by_contra hen
    obtain ⟨s', h, hs', hh, _, hp⟩ := detectLanguageWith_ne_en exceedsThreshold text _ rfl hen
    rw [hs] at hs'
    cases hs'
    have := langCounts_zero_of_not_indic s.data hno h (head_mem_of_sorted _ h hh)
    omega
  · by_cases hen : detectLanguage text = "en"
    · rw [hen]; simp
    · obtain ⟨s, h, _, hh, hk, _⟩ := detectLanguageWith_ne_en exceedsThreshold text _ rfl hen
      have := mem_langCounts_key s.data h (head_mem_of_sorted _ h hh)
      rw [hk] at this
      exact List.mem_cons_of_mem _ this

/-! ## The state machine of the coordinator: C23, C24 -/

/-- The handler suspends on the refresh exchange only on the trigger path. -/
theorem onRejected_suspends (s : State) (error : AxiosError) (c : RequestConfig)
    (hsusp : (onRejected s error).2 = Outcome.awaitingRefresh c) :
    ∃ c0, error.config = some c0 ∧ error.status = some 401 ∧ c0._retry = false ∧
      s.isRefreshing = false ∧ truthy (getItem s.localStorage "refresh_token") = true ∧
      c = { c0 with _retry := true } := by
  unfold onRejected at hsusp
  cases hc : error.config with
  | none =>
    simp only [hc] at hsusp
    split at hsusp <;> cases hsusp
  | some c0 =>
    simp only [hc] at hsusp
    by_cases h1 : error.status = some 401 ∧ c0._retry = false
    · rw [if_pos h1] at hsusp
      cases hq : s.isRefreshing with
      | true => simp [hq] at hsusp
      | false =>
        cases ht : truthy (getItem s.localStorage "refresh_token") with
        | false => simp [hq, ht] at hsusp
        | true =>
          simp only [hq, ht, Bool.false_eq_true, if_false, Bool.not_true] at hsusp
          refine ⟨c0, rfl, h1.1, h1.2, rfl, rfl, ?_⟩
          exact (Outcome.awaitingRefresh.inj hsusp).symm
    · rw [if_neg h1] at hsusp
      cases hsusp

/-- C23. Whenever the handler of a failure reaches its first suspension point,
the refresh exchange, it has by then tested the refreshing flag and found it
false, marked the request as retried, set the flag to true and issued the
exchange, all in the one synchronous section that ends at the suspension; so
every eligible failure handled from that point on finds the flag true: it is
queued and issues no refresh exchange. -/
theorem transition_before_suspension (s : State) (error : AxiosError) (c : RequestConfig)
    (hsusp : (onRejected s error).2 = Outcome.awaitingRefresh c) :
    eligible error = true ∧ s.isRefreshing = false ∧
    (onRejected s error).1.isRefreshing = true ∧ c._retry = true ∧
    (onRejected s error).1.log =
      s.log ++ [Effect.refreshPost ((getItem s.localStorage "refresh_token").getD "")] ∧
    ∀ other : AxiosError, eligible other = true →
      (onRejected (onRejected s error).1 other).2 = Outcome.queued ∧
      (onRejected (onRejected s error).1 other).1.log = (onRejected s error).1.log ∧
      (onRejected (onRejected s error).1 other).1.isRefreshing = true := by
  obtain ⟨c0, hc, h401, hr, hq, ht, hcc⟩ := onRejected_suspends s error c hsusp
  have hel : eligible error = true := (eligible_iff error).mpr ⟨c0, hc, h401, hr⟩
  rw [onRejected_trigger s error c0 hc h401 hr hq ht]
  refine ⟨hel, hq, rfl, by rw [hcc], rfl, ?_⟩
  intro other ho
  obtain ⟨c2, hc2, h2, hr2⟩ := (eligible_iff other).mp ho
  rw [onRejected_queued _ other c2 hc2 h2 hr2 rfl]
  exact ⟨rfl, rfl, rfl⟩

/-- Witness of C23: the failure of `/a` in the sample state suspends on the exchange. -/
theorem transition_before_suspension_witness :
    (onRejected sampleState (sampleError "/a")).2 =
      Outcome.awaitingRefresh { sampleRequest "/a" with _retry := true } ∧
    (onRejected sampleState (sampleError "/a")).1.isRefreshing = true :=
  ⟨by decide,
    (transition_before_suspension sampleState (sampleError "/a")
      { sampleRequest "/a" with _retry := true } (by decide)).2.2.1⟩

/-- C24. Handling an eligible failure while the coordinator is refreshing
appends exactly one waiter, for the failed request, at the tail of the queue
and changes nothing else: the log is as before (no refresh exchange, no
terminator), the store is as before, the flag stays true and the earlier
waiters keep their places. -/
theorem enqueue_while_refreshing (s : State) (error : AxiosError)
    (he : eligible error = true) (hq : s.isRefreshing = true) :
    ∃ c, error.config = some c ∧
      onRejected s error =
        ({ s with failedQueue := s.failedQueue ++ [{ originalRequest := c }] },
          Outcome.queued) ∧
      (onRejected s error).1.log = s.log ∧
      (onRejected s error).1.localStorage = s.localStorage ∧
      (onRejected s error).1.isRefreshing = true ∧
      (onRejected s error).1.failedQueue.length = s.failedQueue.length + 1 := by
  obtain ⟨c, hc, h401, hr⟩ := (eligible_iff error).mp he
  refine ⟨c, hc, onRejected_queued s error c hc h401 hr hq, ?_⟩
  rw [onRejected_queued s error c hc h401 hr hq]
  exact ⟨rfl, rfl, hq, by simp⟩

/-- Witness of C24: a fourth failure `/d` while the sample refresh is in flight. -/
theorem enqueue_while_refreshing_witness :
    ∃ c, (sampleError "/d").config = some c ∧
      onRejected sampleRefreshing (sampleError "/d") =
        ({ sampleRefreshing with
            failedQueue := sampleRefreshing.failedQueue ++ [{ originalRequest := c }] },
          Outcome.queued) :=
  match enqueue_while_refreshing sampleRefreshing (sampleError "/d") (by decide) (by decide) with
  | ⟨c, hc, h, _⟩ => ⟨c, hc, h⟩

/-! ## Facts about reachable states -/

theorem afterRefresh_idle (s : State) (originalRequest : RequestConfig)
    (result : Except JsError RefreshData) :
    (afterRefresh s originalRequest result).1.isRefreshing = false := rfl

theorem tryBlock_ok_queue (s : State) (originalRequest : RequestConfig)
    (result : Except JsError RefreshData) (r : State × Outcome)
    (h : tryBlock s originalRequest result = .ok r) : r.1.failedQueue = [] := by
  unfold tryBlock at h
  cases result with
  | error e => cases h
  | ok data =>
    cases data with
    | nullish => cases h
    | body access refresh =>
      simp only [Except.ok.injEq] at h
      rw [← h]
      rfl

theorem afterRefresh_queue (s : State) (originalRequest : RequestConfig)
    (result : Except JsError RefreshData) :
    (afterRefresh s originalRequest result).1.failedQueue = [] := by
  cases h : tryBlock s originalRequest result with
  | ok r =>
    have := tryBlock_ok_queue s originalRequest result r h
    unfold afterRefresh
    rw [h]
    exact this
  | error e =>
    rw [afterRefresh_caught s originalRequest result e h]

/-- The synchronous section of the handler keeps: an idle coordinator has an empty queue. -/
theorem onRejected_keeps_invariant (s : State) (error : AxiosError)
    (hinv : s.isRefreshing = false → s.failedQueue = [])
    (hidle : (onRejected s error).1.isRefreshing = false) :
    (onRejected s error).1.failedQueue = [] := by
  by_cases hel : eligible error = true
  · obtain ⟨c, hc, h401, hr⟩ := (eligible_iff error).mp hel
    cases hq : s.isRefreshing with
    | true =>
      rw [onRejected_queued s error c hc h401 hr hq] at hidle
      rw [hq] at hidle
      cases hidle
    | false =>
      cases ht : truthy (getItem s.localStorage "refresh_token") with
      | true =>
        rw [onRejected_trigger s error c hc h401 hr hq ht] at hidle
        cases hidle
      | false =>
        rw [onRejected_no_credential s error c hc h401 hr hq ht]
  · have hsame : (onRejected s error).1 = s := by
      unfold onRejected
      cases hc : error.config with
      | none =>
        simp only
        split <;> rfl
      | some c =>
        have hne : ¬ (error.status = some 401 ∧ c._retry = false) := by
          intro h
          exact hel ((eligible_iff error).mpr ⟨c, hc, h.1, h.2⟩)
        simp only [if_neg hne]
    rw [hsame] at hidle ⊢
    exact hinv hidle

/-- In every reachable state an idle coordinator has an empty queue, and no
promise reaction is pending. -/
theorem reachable_invariant (s : State) (hr : Reachable s) :
    (s.isRefreshing = false → s.failedQueue = []) ∧ s.microtasks = [] := by
  induction hr with
  | loaded ls pathname => exact ⟨fun _ => rfl, rfl⟩
  | failure s error _ ih =>
    rw [handle_eq, drainMicrotasks_eq]
    exact ⟨fun hidle => onRejected_keeps_invariant s error ih.1 hidle, rfl⟩
  | settled s originalRequest result _ _ =>
    rw [settleRefresh_eq, drainMicrotasks_eq]
    exact ⟨fun _ => afterRefresh_queue s originalRequest result, rfl⟩
  | request s config _ ih => exact ih
  | environment s ls pathname _ ih => exact ih

/-! ## The state machine of the coordinator: C25, C26, C27, C28 -/

/-- C25. In every state reachable from the freshly loaded module (idle, empty
queue) and observed at a suspension point, an idle coordinator has an empty
waiter queue; hence, when an eligible failure then arrives and no refresh
credential is stored, the drain of the no-credential branch settles no waiter:
no reaction is scheduled and no rejection is delivered. -/
theorem idle_implies_empty_queue (s : State) (hr : Reachable s)
    (hidle : s.isRefreshing = false) :
    s.failedQueue = [] ∧
    ∀ error : AxiosError, eligible error = true →
      truthy (getItem s.localStorage "refresh_token") = false →
      (onRejected s error).1.microtasks = [] ∧
      rejections (handle s error).1.log = rejections s.log := by
  obtain ⟨hq, hm⟩ := reachable_invariant s hr
  refine ⟨hq hidle, ?_⟩
  intro error he ht
  obtain ⟨c, hc, h401, hrt⟩ := (eligible_iff error).mp he
  rw [handle_eq, onRejected_no_credential s error c hc h401 hrt hidle ht, drainMicrotasks_eq]
  simp only [hq hidle, hm, List.map_nil, List.append_nil]
  refine ⟨trivial, ?_⟩
  rw [rejections_append, rejections_terminatorEffects, List.append_nil]

/-- Witness of C25: after a failure handled with an empty store the coordinator
is idle and its queue is empty. -/
theorem idle_implies_empty_queue_witness :
    Reachable sampleLoggedOut ∧ sampleLoggedOut.isRefreshing = false ∧
    sampleLoggedOut.failedQueue = [] :=
  ⟨Reachable.failure _ _ (Reachable.loaded _ _), by decide,
    (idle_implies_empty_queue sampleLoggedOut
      (Reachable.failure _ _ (Reachable.loaded _ _)) (by decide)).1⟩

/-- On the wire a reissued request carries the stored value: the request
interceptor writes it over the header, and where the stored text is empty the
header was built from that same value. -/
theorem sent_after_refresh (ls : Storage) (d : Option String) (c : RequestConfig)
    (access token : JsValue) (htoken : token = access ∨ access = JsValue.undefined) :
    requestInterceptor (setItem ls "access_token" access.toStr)
        (mergeDefaults d { c with Authorization := some ("Bearer " ++ token.toStr) }) =
      { c with Authorization := some ("Bearer " ++ access.toStr) } := by
  unfold requestInterceptor
  rw [getItem_setItem_self]
  by_cases h : access.toStr = ""
  · rcases htoken with ht | ht
    · simp [truthy, mergeDefaults, h, ht]
    · rw [ht] at h
      exact absurd h (by decide)
  · simp [truthy, mergeDefaults, h]

theorem requests_resolved_any (ls : Storage) (d : Option String) (access : JsValue)
    (q : List Waiter) :
    requests ((q.map (settle none
        (if access = JsValue.undefined then JsValue.null else access))).map
        (microtaskEffect (setItem ls "access_token" access.toStr) d)) =
      q.map (fun w =>
        { w.originalRequest with Authorization := some ("Bearer " ++ access.toStr) }) := by
  have htoken : (if access = JsValue.undefined then JsValue.null else access) = access ∨
      access = JsValue.undefined := by
    by_cases h : access = JsValue.undefined
    · exact Or.inr h
    · exact Or.inl (if_neg h)
  induction q with
  | nil => rfl
  | cons w rest ih =>
    simp only [List.map_cons, settle, microtaskEffect,
      sent_after_refresh ls d w.originalRequest access _ htoken]
    simpa [requests] using ih

/-- C26. Every handling of a triggering failure ends with the refreshing flag
false: in the no-refresh-credential branch when the handler returns, and after
the exchange for every way it can settle (fulfilled with any body, or
rejected).  The machine is then not stuck: a later eligible failure is taken by
the trigger path again, not queued; after a successful exchange, with the
refresh credential still stored, it starts a new refresh exchange. -/
theorem returns_to_idle (s : State) (originalRequest : RequestConfig) :
    (∀ error : AxiosError, eligible error = true → s.isRefreshing = false →
      truthy (getItem s.localStorage "refresh_token") = false →
      (onRejected s error).1.isRefreshing = false) ∧
    (∀ result : Except JsError RefreshData,
      (afterRefresh s originalRequest result).1.isRefreshing = false ∧
      (settleRefresh s originalRequest result).1.isRefreshing = false) ∧
    (∀ (access refresh : JsValue) (later : AxiosError) (c : RequestConfig),
      later.config = some c → later.status = some 401 → c._retry = false →
      truthy (getItem s.localStorage "refresh_token") = true →
      (handle (settleRefresh s originalRequest
          (.ok (RefreshData.body access refresh))).1 later).2 =
        Outcome.awaitingRefresh { c with _retry := true }) ∧
    (∀ (refreshError : JsError) (later : AxiosError), eligible later = true →
      (handle (settleRefresh s originalRequest (.error refreshError)).1 later).2 =
        Outcome.rejected (JsError.axiosError (markRetried later))) := by
  refine ⟨?_, ?_, ?_, ?_⟩
  · intro error he hq ht
    obtain ⟨c, hc, h401, hr⟩ := (eligible_iff error).mp he
    rw [onRejected_no_credential s error c hc h401 hr hq ht]
  · intro result
    refine ⟨rfl, ?_⟩
    rw [settleRefresh_eq, drainMicrotasks_eq]
    rfl
  · intro access refresh later c hc h401 hr ht
    refine (handle_trigger _ later c hc h401 hr ?_ ?_).1
    · rw [settleRefresh_eq, drainMicrotasks_eq]
      rfl
    · rw [settleRefresh_eq, afterRefresh_body, drainMicrotasks_eq]
      show truthy (getItem (setItem s.localStorage "access_token" access.toStr)
        "refresh_token") = true
      rw [getItem_setItem_of_ne _ _ (by decide)]
      exact ht
  · intro refreshError later he
    refine (handle_no_credential _ later he ?_ ?_).1
    · rw [settleRefresh_eq, drainMicrotasks_eq]
      rfl
    · rw [settleRefresh_eq,
        afterRefresh_caught s originalRequest (.error refreshError) refreshError rfl,
        drainMicrotasks_eq]
      show truthy (getItem (removeItem (removeItem s.localStorage "access_token")
        "refresh_token") "refresh_token") = false
      rw [getItem_cleared_refresh]
      rfl

/-- C27. After the success path the refresh entry of the store is what it was
before the exchange, whatever access value the body carries and also when the
body carries a new refresh credential. -/
theorem refresh_entry_unchanged (s : State) (originalRequest : RequestConfig)
    (access refresh : JsValue) :
    getItem (settleRefresh s originalRequest
        (.ok (RefreshData.body access refresh))).1.localStorage "refresh_token" =
      getItem s.localStorage "refresh_token" := by
  rw [settleRefresh_eq, afterRefresh_body, drainMicrotasks_eq]
  exact getItem_setItem_of_ne _ _ (by decide)

/-- C28. For every refresh exchange that resolves with an object body, with or
without an access field, the handler resolves every waiter (an absent access
reaches the waiters as the parameter default `null`), reissues the triggering
request, rejects nobody and does not run the session terminator; the trigger
and all waiters go on the wire exactly once, all with the same header, `Bearer`
followed by the text of the access value (`Bearer undefined` when absent). -/
theorem success_path_unchecked (s : State) (originalRequest : RequestConfig)
    (access refresh : JsValue) (hs : s.microtasks = []) :
    (afterRefresh s originalRequest (.ok (RefreshData.body access refresh))).1.microtasks =
      s.failedQueue.map (fun w => Microtask.onFulfilled w.originalRequest
        (if access = JsValue.undefined then JsValue.null else access)) ∧
    requests (settleRefresh s originalRequest
        (.ok (RefreshData.body access refresh))).1.log =
      requests s.log ++
        ({ originalRequest with Authorization := some ("Bearer " ++ access.toStr) } ::
          s.failedQueue.map (fun w =>
            { w.originalRequest with Authorization := some ("Bearer " ++ access.toStr) })) ∧
    (settleRefresh s originalRequest (.ok (RefreshData.body access refresh))).2 =
      Outcome.reissued
        { originalRequest with Authorization := some ("Bearer " ++ access.toStr) } ∧
    rejections (settleRefresh s originalRequest
        (.ok (RefreshData.body access refresh))).1.log = rejections s.log ∧
    events (settleRefresh s originalRequest
        (.ok (RefreshData.body access refresh))).1.log = events s.log ∧
    navigations (settleRefresh s originalRequest
        (.ok (RefreshData.body access refresh))).1.log = navigations s.log := by
  rw [settleRefresh_eq, afterRefresh_body, drainMicrotasks_eq]
  simp only [hs, List.nil_append]
  refine ⟨rfl, ?_, trivial, ?_, ?_, ?_⟩
  · rw [requests_append, requests_append, requests_resolved_any,
      sent_after_refresh _ _ _ _ _ (Or.inl rfl)]
    simp [requests]
  · rw [rejections_append, rejections_append, rejections_resolved]
    simp [rejections]
  · rw [events_append, events_append, events_microtasks]
    simp [events]
  · rw [navigations_append, navigations_append]
    have : navigations (List.map
        (microtaskEffect (setItem s.localStorage "access_token" access.toStr)
          (some ("Bearer " ++ access.toStr)))
        (List.map (settle none (if access = JsValue.undefined then JsValue.null else access))
          s.failedQueue)) = [] := by
      induction s.failedQueue with
      | nil => rfl
      | cons w rest ih => simp [navigations, settle, microtaskEffect]
    rw [this]
    simp [navigations]

/-- Witness of C28: the body of the sample refresh carries no access field. -/
theorem success_path_unchecked_witness :
    sampleRefreshing.microtasks = [] ∧
    requests (settleRefresh sampleRefreshing { sampleRequest "/a" with _retry := true }
        (.ok (RefreshData.body JsValue.undefined JsValue.undefined))).1.log =
      [ { url := "/a", Authorization := some "Bearer undefined", _retry := true },
        { url := "/b", Authorization := some "Bearer undefined", _retry := false },
        { url := "/c", Authorization := some "Bearer undefined", _retry := false } ] :=
  ⟨by decide,
    (success_path_unchecked sampleRefreshing { sampleRequest "/a" with _retry := true }
      JsValue.undefined JsValue.undefined (by decide)).2.1.trans (by decide)⟩

/-! ## Facts about the saved set -/

theorem sameValueZero_eq (a b : JsonValue) (h : sameValueZero a b = true) : a = b := by
  cases a <;> cases b <;> simp_all [sameValueZero]

theorem sameValueZero_self (a : JsonValue) (ha : isId a = true) : sameValueZero a a = true := by
  cases a <;> simp_all [sameValueZero, isId]

theorem sameValueZero_id_iff (x id : JsonValue) (hid : isId id = true) :
    sameValueZero x id = true ↔ x = id := by
  constructor
  · exact sameValueZero_eq x id
  · intro h
    rw [h]
    exact sameValueZero_self id hid

theorem setHas_mem (set : List JsonValue) (v : JsonValue) (h : setHas set v = true) :
    v ∈ set := by
  unfold setHas at h
  rw [List.any_eq_true] at h
  obtain ⟨x, hx, hs⟩ := h
  rw [← sameValueZero_eq x v hs]
  exact hx

theorem setHas_iff (set : List JsonValue) (id : JsonValue) (hid : isId id = true) :
    setHas set id = true ↔ id ∈ set := by
  constructor
  · exact setHas_mem set id
  · intro h
    unfold setHas
    rw [List.any_eq_true]
    exact ⟨id, h, sameValueZero_self id hid⟩

theorem mem_setAdd (set : List JsonValue) (v x : JsonValue) :
    x ∈ setAdd set v ↔ x ∈ set ∨ x = v := by
  unfold setAdd
  cases h : setHas set v with
  | true =>
    simp only [if_true]
    constructor
    · exact Or.inl
    · rintro (hx | hx)
      · exact hx
      · rw [hx]; exact setHas_mem set v h
  | false => simp

theorem mem_setDelete (set : List JsonValue) (id x : JsonValue) (hid : isId id = true) :
    x ∈ setDelete set id ↔ x ∈ set ∧ x ≠ id := by
  unfold setDelete
  rw [List.mem_filter]
  constructor
  · rintro ⟨hx, hs⟩
    refine ⟨hx, fun he => ?_⟩
    rw [(sameValueZero_id_iff x id hid).mpr he] at hs
    cases hs
  · rintro ⟨hx, hne⟩
    refine ⟨hx, ?_⟩
    cases hs : sameValueZero x id with
    | true => exact absurd ((sameValueZero_id_iff x id hid).mp hs) hne
    | false => rfl

theorem mem_foldl_setAdd (arr acc : List JsonValue) (x : JsonValue) :
    x ∈ arr.foldl setAdd acc ↔ x ∈ acc ∨ x ∈ arr := by
  induction arr generalizing acc with
  | nil => simp
  | cons v rest ih =>
    rw [List.foldl_cons, ih, mem_setAdd, List.mem_cons]
    constructor
    · rintro ((h | h) | h)
      · exact Or.inl h
      · exact Or.inr (Or.inl h)
      · exact Or.inr (Or.inr h)
    · rintro (h | h | h)
      · exact Or.inl (Or.inl h)
      · exact Or.inl (Or.inr h)
      · exact Or.inr h

theorem mem_newSet (arr : List JsonValue) (x : JsonValue) : x ∈ newSet arr ↔ x ∈ arr := by
  unfold newSet
  rw [mem_foldl_setAdd]
  simp

theorem map_reread_of_finite (set : List JsonValue)
    (h : ∀ x ∈ set, ∀ b, x ≠ JsonValue.nonFinite b) : set.map reread = set := by
  induction set with
  | nil => rfl
  | cons v rest ih =>
    rw [List.map_cons, ih (fun x hx => h x (List.mem_cons_of_mem _ hx))]
    have hv := h v (List.mem_cons_self _ _)
    cases v <;> first | rfl | exact absurd rfl (hv _)

theorem toggleSaved_snd (id : JsonValue) (raw : Option Raw) :
    (toggleSaved id raw).2 =
      if setHas (getSavedIds raw) id = true then setDelete (getSavedIds raw) id
      else setAdd (getSavedIds raw) id := rfl

/-- Membership in the set returned by one toggle. -/
theorem mem_toggled (raw : Option Raw) (id x : JsonValue) (hid : isId id = true) :
    x ∈ (toggleSaved id raw).2 ↔
      (x ∈ getSavedIds raw ∧ x ≠ id) ∨ (x = id ∧ id ∉ getSavedIds raw) := by
  rw [toggleSaved_snd]
  cases h : setHas (getSavedIds raw) id with
  | true =>
    have hm := (setHas_iff _ id hid).mp h
    rw [if_pos rfl, mem_setDelete _ _ _ hid]
    constructor
    · exact Or.inl
    · rintro (h' | h')
      · exact h'
      · exact absurd hm h'.2
  | false =>
    have hm : id ∉ getSavedIds raw := fun hin => by
      rw [(setHas_iff _ id hid).mpr hin] at h
      cases h
    rw [if_neg Bool.false_ne_true, mem_setAdd]
    constructor
    · rintro (h' | h')
      · exact Or.inl ⟨h', fun he => hm (he ▸ h')⟩
      · exact Or.inr ⟨h', hm⟩
    · rintro (h' | h')
      · exact Or.inl h'.1
      · exact Or.inr h'.1

/-- Reading the key back after one toggle gives the returned set, when no
member is a number beyond the range of a double. -/
theorem mem_getSavedIds_toggled (raw : Option Raw) (id x : JsonValue)
    (hfin : ∀ y ∈ (toggleSaved id raw).2, ∀ b, y ≠ JsonValue.nonFinite b) :
    x ∈ getSavedIds (toggleSaved id raw).1 ↔ x ∈ (toggleSaved id raw).2 := by
  have h1 : (toggleSaved id raw).1 = some (Raw.array ((toggleSaved id raw).2.map reread)) := rfl
  rw [h1, map_reread_of_finite _ hfin]
  exact mem_newSet _ x

theorem isId_ne_nonFinite (id : JsonValue) (hid : isId id = true) (b : Bool) :
    id ≠ JsonValue.nonFinite b := by
  intro h
  rw [h] at hid
  cases hid

/-- Membership in the set returned by the second of two toggles of the same id. -/
theorem mem_toggled_twice (raw : Option Raw) (id x : JsonValue) (hid : isId id = true)
    (hfin : ∀ y ∈ getSavedIds raw, ∀ b, y ≠ JsonValue.nonFinite b) :
    x ∈ (toggleSaved id (toggleSaved id raw).1).2 ↔ x ∈ getSavedIds raw := by
  have hfin1 : ∀ y ∈ (toggleSaved id raw).2, ∀ b, y ≠ JsonValue.nonFinite b := by
    intro y hy b
    rcases (mem_toggled raw id y hid).mp hy with h | h
    · exact hfin y h.1 b
    · rw [h.1]; exact isId_ne_nonFinite id hid b
  have h1 : ∀ z, z ∈ getSavedIds (toggleSaved id raw).1 ↔
      (z ∈ getSavedIds raw ∧ z ≠ id) ∨ (z = id ∧ id ∉ getSavedIds raw) := fun z =>
    (mem_getSavedIds_toggled raw id z hfin1).trans (mem_toggled raw id z hid)
  rw [mem_toggled _ id x hid, h1 x, h1 id]
  by_cases hx : x = id
  · subst hx
    by_cases hin : x ∈ getSavedIds raw <;> simp [hin]
  · simp [hx]

/-! ## Saved schemes: C29 -/

/-- C29 as stated fails for a stored list that holds a number beyond the range
of a double.  The stored text `[1e999]` is read as the set with the one member
`Infinity`; toggling the id `x` writes `Infinity` back as `null`, so after two
toggles the stored set is the set with the one member `null`: `Infinity` is no
longer in it. -/
theorem toggleSaved_loses_infinity :
    getSavedIds (some (Raw.array [JsonValue.nonFinite false])) = [JsonValue.nonFinite false] ∧
    getSavedIds (toggleSaved (JsonValue.string "x")
      (toggleSaved (JsonValue.string "x")
        (some (Raw.array [JsonValue.nonFinite false]))).1).1 = [JsonValue.null] := by
  decide

/-- C29 amended. For every stored content (absent, empty, malformed or
non-array content counting as the empty list) and every id that is a string or
a finite number, the set `toggleSaved(id)` returns contains the id exactly when
the stored set did not; and when no member of the stored set is a number
beyond the range of a double, the set returned by a second `toggleSaved(id)`,
and the set then stored, have exactly the members of the set stored at first. -/
theorem toggleSaved_involution (raw : Option Raw) (id : JsonValue) (hid : isId id = true) :
    setHas (toggleSaved id raw).2 id = !setHas (getSavedIds raw) id ∧
    ((∀ y ∈ getSavedIds raw, ∀ b, y ≠ JsonValue.nonFinite b) →
      (∀ x, x ∈ (toggleSaved id (toggleSaved id raw).1).2 ↔ x ∈ getSavedIds raw) ∧
      (∀ x, x ∈ getSavedIds (toggleSaved id (toggleSaved id raw).1).1 ↔
        x ∈ getSavedIds raw)) := by
  constructor
  · have h := mem_toggled raw id id hid
    cases hs : setHas (getSavedIds raw) id with
    | true =>
      have hin := (setHas_iff _ id hid).mp hs
      cases ht : setHas (toggleSaved id raw).2 id with
      | true =>
        have := h.mp ((setHas_iff _ id hid).mp ht)
        rcases this with h' | h'
        · exact absurd rfl h'.2
        · exact absurd hin h'.2
      | false => rfl
    | false =>
      have hnin : id ∉ getSavedIds raw := fun hin => by
        rw [(setHas_iff _ id hid).mpr hin] at hs
        cases hs
      exact (setHas_iff _ id hid).mpr (h.mpr (Or.inr ⟨rfl, hnin⟩))
  · intro hfin
    refine ⟨fun x => mem_toggled_twice raw id x hid hfin, fun x => ?_⟩
    have hfin2 : ∀ y ∈ (toggleSaved id (toggleSaved id raw).1).2,
        ∀ b, y ≠ JsonValue.nonFinite b := fun y hy b =>
      hfin y ((mem_toggled_twice raw id y hid hfin).mp hy) b
    exact (mem_getSavedIds_toggled _ id x hfin2).trans (mem_toggled_twice raw id x hid hfin)

/-- Witness of C29 amended: the id 3 is toggled in a stored list that holds it. -/
theorem toggleSaved_involution_witness :
    isId (JsonValue.number "3") = true ∧
    setHas (toggleSaved (JsonValue.number "3")
      (some (Raw.array [JsonValue.number "1", JsonValue.number "3"]))).2
      (JsonValue.number "3") = false :=
  ⟨by decide,
    (toggleSaved_involution (some (Raw.array [JsonValue.number "1", JsonValue.number "3"]))
      (JsonValue.number "3") (by decide)).1.trans (by decide)⟩

end Vaani
